import Mathlib

/-!
Verification of the deal-scoring response contract of the Commodity repository.

The development shallowly embeds the relevant parts of
`src/services/ai_scorer.py`:

* a model `Py` of Python runtime values (dicts are insertion-ordered
  association lists, floats are modelled as exact rationals),
* a model of the parts of Python's `json.loads` used by the service
  (fuel-based recursive-descent parser; error messages are abbreviated,
  CPython reports line/column positions which are not modelled),
* the response normalizer `_parse_score_response` with its three tiers
  (clean parse, JSON-decode failure recovery, generic catch-all), with the
  exception flow made explicit in an `Except` monad,
* the prompt builder `_build_scoring_prompt`, and
* `score_deal`'s result assembly.

Diagnostic `print` calls in the source have no effect on returned values and
are not modelled, except that the debug slice `response_text[:500]` is the
operation that raises `TypeError` for non-string input, which is modelled.
-/

set_option maxRecDepth 8000

/-- Model of a Python runtime value as handled by the scoring service.
Python floats are modelled as exact rationals; `NaN` and the two signed
infinities (accepted by `json.loads`) get their own constructors.
Dictionaries are insertion-ordered association lists, as in CPython. -/
inductive Py where
  | none
  | bool (b : Bool)
  | int (n : Int)
  | float (q : Rat)
  | nan
  | inf (neg : Bool)
  | str (s : String)
  | list (xs : List Py)
  | dict (kvs : List (String × Py))

/-- Model of the Python exceptions that can arise inside
`_parse_score_response`.  `json.JSONDecodeError` is the one the code
handles separately; everything else is caught by the generic
`except Exception` clause. -/
inductive PyErr where
  | jsonDecodeError (msg : String)
  | valueError (msg : String)
  | typeError (msg : String)
  | attributeError (msg : String)
  | recursionError

/-- The message `str(e)` of a modelled exception. -/
def PyErr.msg : PyErr → String
  | .jsonDecodeError m => m
  | .valueError m => m
  | .typeError m => m
  | .attributeError m => m
  | .recursionError => "maximum recursion depth exceeded"

/-- First-occurrence lookup in a Python dict (`d[k]` / `k in d`). -/
def dlookup : List (String × Py) → String → Option Py
  | [], _ => Option.none
  | (k, v) :: rest, key => if k = key then some v else dlookup rest key

/-- Python dict assignment `d[k] = v`: overwrite the value in place if the
key exists, otherwise append the new pair at the end (insertion order). -/
def dictSet : List (String × Py) → String → Py → List (String × Py)
  | [], key, v => [(key, v)]
  | (k, w) :: rest, key, v =>
    if k = key then (k, v) :: rest else (k, w) :: dictSet rest key v

/-- The keys of a dict, in order. -/
def dkeys (d : List (String × Py)) : List String := d.map Prod.fst

/-- `d.get(k)` (default `None`). -/
def pyGet (d : List (String × Py)) (k : String) : Py := (dlookup d k).getD Py.none

/-- `d.get(k, dflt)`. -/
def pyGetD (d : List (String × Py)) (k : String) (dflt : Py) : Py :=
  (dlookup d k).getD dflt

/-- Python truthiness of a modelled value. -/
def pyTruthy : Py → Bool
  | Py.none => false
  | .bool b => b
  | .int n => n ≠ 0
  | .float q => q ≠ 0
  | .nan => true
  | .inf _ => true
  | .str s => s ≠ ""
  | .list xs => !xs.isEmpty
  | .dict kvs => !kvs.isEmpty

/-- The Python type name of a modelled value (used in error messages). -/
def pyTypeName : Py → String
  | Py.none => "NoneType"
  | .bool _ => "bool"
  | .int _ => "int"
  | .float _ => "float"
  | .nan => "float"
  | .inf _ => "float"
  | .str _ => "str"
  | .list _ => "list"
  | .dict _ => "dict"

/-! ### Characters and low-level string helpers

A few characters are written via `Char.ofNat` so that the Lean source
stays free of stray quotes, braces and backticks inside character
literals. -/

def quoteChar : Char := Char.ofNat 34

def backslashChar : Char := Char.ofNat 92

def backquoteChar : Char := Char.ofNat 96

def lbraceChar : Char := Char.ofNat 123

def rbraceChar : Char := Char.ofNat 125

/-- The decimal digit character for `d % 10`. -/
def digitChar : Nat → Char
  | 0 => '0'
  | 1 => '1'
  | 2 => '2'
  | 3 => '3'
  | 4 => '4'
  | 5 => '5'
  | 6 => '6'
  | 7 => '7'
  | 8 => '8'
  | _ => '9'

/-- Decimal digits of a natural number (fuel-based so that it reduces in
the kernel); `natDigitsF (n+1) n` is the full digit list. -/
def natDigitsF : Nat → Nat → List Char
  | 0, _ => []
  | f + 1, n =>
    if n < 10 then [digitChar n]
    else natDigitsF f (n / 10) ++ [digitChar (n % 10)]

/-- Decimal string of a natural number, as Python `str` renders it. -/
def natStr (n : Nat) : String := String.mk (natDigitsF (n + 1) n)

/-- Decimal string of an integer, as Python `str` renders it. -/
def intStr (n : Int) : String := if n < 0 then "-" ++ natStr n.natAbs else natStr n.natAbs

/-- Numeric value of a list of decimal digit characters. -/
def digitsToNat (ds : List Char) : Nat :=
  ds.foldl (fun a c => a * 10 + (c.toNat - 48)) 0

/-- The whitespace set of Python's `str.strip()` (ASCII part plus NEL and
NBSP; further Unicode space characters do not occur in this development). -/
def pyIsSpace (c : Char) : Bool :=
  c = ' ' || c = '\t' || c = '\n' || c = '\r' || c = '\x0b' || c = '\x0c' ||
  c = '\x1c' || c = '\x1d' || c = '\x1e' || c = '\x1f' || c = '\x85' || c = '\xa0'

/-- `s.strip()` on a character list. -/
def pyStripChars (cs : List Char) : List Char :=
  ((cs.dropWhile pyIsSpace).reverse.dropWhile pyIsSpace).reverse

/-- The whitespace class `\s` of Python's `re` module (ASCII part). -/
def reIsSpace (c : Char) : Bool :=
  c = ' ' || c = '\t' || c = '\n' || c = '\r' || c = '\x0b' || c = '\x0c'

/-- Drop characters until the first occurrence of `c` (inclusive); `none`
if `c` does not occur. -/
def dropUntil (c : Char) : List Char → Option (List Char)
  | [] => Option.none
  | x :: xs => if x = c then some (x :: xs) else dropUntil c xs

/-- Model of `re.search(r'\{[\s\S]*\}', cleaned)`: the greedy pattern
matches from the first `{` of the text to the last `}`, provided some `}`
occurs after the first `{`; there is no brace balancing. -/
def reSearchBrace (cs : List Char) : Option (List Char) :=
  (dropUntil lbraceChar cs).bind fun tail =>
    (dropUntil rbraceChar tail.reverse).map List.reverse

/-- One attempt of the pattern `"score"\s*:\s*(\d+)` anchored at the start
of `cs`: returns the captured digit group's value. -/
def matchScoreAt (cs : List Char) : Option Nat :=
  if (quoteChar :: ('s' :: 'c' :: 'o' :: 'r' :: 'e' :: [quoteChar])).isPrefixOf cs then
    let r1 := (cs.drop 7).dropWhile reIsSpace
    match r1 with
    | ':' :: r2 =>
      let r3 := r2.dropWhile reIsSpace
      let ds := r3.takeWhile Char.isDigit
      if ds.isEmpty then Option.none else some (digitsToNat ds)
    | _ => Option.none
  else Option.none

/-- Model of `re.search(r'"score"\s*:\s*(\d+)', text)`: value of the digit
group at the leftmost match, if any. -/
def scoreSearch : List Char → Option Nat
  | [] => Option.none
  | c :: cs =>
    match matchScoreAt (c :: cs) with
    | some n => some n
    | Option.none => scoreSearch cs

/-- Is `pat` a contiguous sublist of `hay`? (model of Python `in` on
strings). -/
def containsChars (hay pat : List Char) : Bool :=
  if pat.isPrefixOf hay then true
  else
    match hay with
    | [] => false
    | _ :: t => containsChars t pat

/-- Substring test on strings. -/
def strContains (hay pat : String) : Bool := containsChars hay.toList pat.toList

/-! ### Model of `json.loads`

Recursive-descent parser mirroring CPython's `json` module in its default
strict mode: optional whitespace (space, tab, newline, carriage return)
between tokens, objects with string keys (duplicate keys: last value
wins), arrays, strings with the standard escapes (`\uXXXX` including
surrogate pairs; an unpaired surrogate is modelled as U+FFFD since Lean
characters are Unicode scalar values), numbers per the JSON grammar
(integer literals give Python `int`s, fraction/exponent forms give
floats), the literals `true`/`false`/`null` and the CPython extensions
`NaN`/`Infinity`/`-Infinity`.  Recursion is fuel-based; the top level runs
with fuel `length + 1`, which exceeds any possible nesting depth (running
out of fuel models `RecursionError`). -/

/-- JSON inter-token whitespace. -/
def jsonWsB (c : Char) : Bool := c = ' ' || c = '\t' || c = '\n' || c = '\r'

/-- Skip JSON whitespace. -/
def skipJsonWs : List Char → List Char
  | [] => []
  | c :: cs => if jsonWsB c then skipJsonWs cs else c :: cs

/-- Value of a hexadecimal digit character. -/
def hexVal (c : Char) : Option Nat :=
  if '0' ≤ c ∧ c ≤ '9' then some (c.toNat - 48)
  else if 'a' ≤ c ∧ c ≤ 'f' then some (c.toNat - 87)
  else if 'A' ≤ c ∧ c ≤ 'F' then some (c.toNat - 70)
  else Option.none

/-- Value of a four-digit hexadecimal escape. -/
def hex4 (a b c d : Char) : Option Nat :=
  match hexVal a, hexVal b, hexVal c, hexVal d with
  | some x, some y, some z, some w => some (((x * 16 + y) * 16 + z) * 16 + w)
  | _, _, _, _ => Option.none

/-- Does `cs` start with a `\uXXXX` escape denoting a low surrogate?  If
so, return its value and the remaining input. -/
def lowSurrogateEsc? : List Char → Option (Nat × List Char)
  | b1 :: u1 :: a2 :: b2 :: c3 :: d2 :: cs3 =>
    if b1 = backslashChar ∧ u1 = 'u' then
      match hex4 a2 b2 c3 d2 with
      | some w => if 0xDC00 ≤ w ∧ w ≤ 0xDFFF then some (w, cs3) else Option.none
      | Option.none => Option.none
    else Option.none
  | _ => Option.none

/-- Body of a JSON string after the opening quote, accumulating decoded
characters in reverse; returns the string and the input after the closing
quote.  Fuel-based so that it reduces in the kernel; every step consumes
at least one character, so fuel `length + 1` (as all call sites pass)
never runs out. -/
def parseStringBody : Nat → List Char → List Char → Except PyErr (String × List Char)
  | 0, _, _ => throw PyErr.recursionError
  | _ + 1, _, [] => throw (PyErr.jsonDecodeError "Unterminated string")
  | fuel + 1, acc, c :: cs =>
    if c = quoteChar then .ok (String.mk acc.reverse, cs)
    else if c = backslashChar then
      match cs with
      | [] => throw (PyErr.jsonDecodeError "Unterminated string")
      | e :: cs1 =>
        if e = quoteChar then parseStringBody fuel (quoteChar :: acc) cs1
        else if e = backslashChar then parseStringBody fuel (backslashChar :: acc) cs1
        else if e = '/' then parseStringBody fuel ('/' :: acc) cs1
        else if e = 'b' then parseStringBody fuel (Char.ofNat 8 :: acc) cs1
        else if e = 'f' then parseStringBody fuel (Char.ofNat 12 :: acc) cs1
        else if e = 'n' then parseStringBody fuel ('\n' :: acc) cs1
        else if e = 'r' then parseStringBody fuel ('\r' :: acc) cs1
        else if e = 't' then parseStringBody fuel ('\t' :: acc) cs1
        else if e = 'u' then
          match cs1 with
          | a :: b :: c2 :: d :: cs2 =>
            match hex4 a b c2 d with
            | Option.none => throw (PyErr.jsonDecodeError "Invalid hexadecimal escape")
            | some v =>
              if 0xD800 ≤ v ∧ v ≤ 0xDBFF then
                match lowSurrogateEsc? cs2 with
                | some wr =>
                  parseStringBody fuel
                    (Char.ofNat (0x10000 + (v - 0xD800) * 0x400 + (wr.1 - 0xDC00)) :: acc) wr.2
                | Option.none => parseStringBody fuel (Char.ofNat 0xFFFD :: acc) cs2
              else if 0xDC00 ≤ v ∧ v ≤ 0xDFFF then
                parseStringBody fuel (Char.ofNat 0xFFFD :: acc) cs2
              else parseStringBody fuel (Char.ofNat v :: acc) cs2
          | _ => throw (PyErr.jsonDecodeError "Invalid hexadecimal escape")
        else throw (PyErr.jsonDecodeError "Invalid escape")
    else if c.toNat < 32 then
      throw (PyErr.jsonDecodeError "Invalid control character")
    else parseStringBody fuel (c :: acc) cs

def parseNumberBody (neg : Bool) (cs0 : List Char) : Except PyErr (Py × List Char) :=
  match cs0 with
  | [] => throw (PyErr.jsonDecodeError "Expecting value")
  | c :: rest =>
    if ¬ c.isDigit then throw (PyErr.jsonDecodeError "Expecting value")
    else
      let ip : Nat × List Char :=
        if c = '0' then (0, rest)
        else (digitsToNat ((c :: rest).takeWhile Char.isDigit),
              (c :: rest).dropWhile Char.isDigit)
      let intPart := ip.1
      let cs2 := ip.2
      let frac : List Char × List Char :=
        match cs2 with
        | d :: r =>
          if d = '.' then
            let fs := r.takeWhile Char.isDigit
            if fs.isEmpty then ([], cs2) else (fs, r.dropWhile Char.isDigit)
          else ([], cs2)
        | [] => ([], cs2)
      let fracDigits := frac.1
      let cs3 := frac.2
      let expo : Option (Bool × Nat) × List Char :=
        match cs3 with
        | e :: r =>
          if e = 'e' ∨ e = 'E' then
            let se : Bool × List Char :=
              match r with
              | s :: r2 => if s = '+' then (false, r2) else if s = '-' then (true, r2) else (false, r)
              | [] => (false, [])
            let es := se.2.takeWhile Char.isDigit
            if es.isEmpty then (Option.none, cs3)
            else (some (se.1, digitsToNat es), se.2.dropWhile Char.isDigit)
          else (Option.none, cs3)
        | [] => (Option.none, cs3)
      let cs4 := expo.2
      if fracDigits.isEmpty ∧ expo.1 = Option.none then
        .ok (Py.int (if neg then -(intPart : Int) else (intPart : Int)), cs4)
      else
        let base : Rat :=
          (intPart : Rat) + (digitsToNat fracDigits : Rat) / ((10 : Rat) ^ fracDigits.length)
        let scaled : Rat :=
          match expo.1 with
          | some (true, e) => base / (10 : Rat) ^ e
          | some (false, e) => base * (10 : Rat) ^ e
          | Option.none => base
        .ok (Py.float (if neg then -scaled else scaled), cs4)

/-- A JSON number per the grammar
`-?(0|[1-9][0-9]*)(\.[0-9]+)?([eE][+-]?[0-9]+)?`; an integer literal
yields `Py.int`, a fraction or exponent yields `Py.float`.  As in
CPython's regex-based scanner, a trailing `.` or `e` that is not followed
by digits is not consumed. -/
def parseNumber (cs : List Char) : Except PyErr (Py × List Char) :=
  match cs with
  | c :: rest => if c = '-' then parseNumberBody true rest else parseNumberBody false cs
  | [] => parseNumberBody false []

mutual

/-- Parse a JSON value (after skipping leading whitespace). -/
def parseValue : Nat → List Char → Except PyErr (Py × List Char)
  | 0, _ => throw PyErr.recursionError
  | fuel + 1, cs0 =>
    let cs := skipJsonWs cs0
    match cs with
    | [] => throw (PyErr.jsonDecodeError "Expecting value")
    | c :: rest =>
      if c = lbraceChar then
        let cs1 := skipJsonWs rest
        match cs1 with
        | c1 :: rest1 =>
          if c1 = rbraceChar then .ok (Py.dict [], rest1) else parseMembers fuel cs1 []
        | [] => throw (PyErr.jsonDecodeError "Expecting property name enclosed in double quotes")
      else if c = '[' then
        let cs1 := skipJsonWs rest
        match cs1 with
        | c1 :: rest1 =>
          if c1 = ']' then .ok (Py.list [], rest1) else parseElems fuel cs1 []
        | [] => throw (PyErr.jsonDecodeError "Expecting value")
      else if c = quoteChar then do
        let sr ← parseStringBody (rest.length + 1) [] rest
        .ok (Py.str sr.1, sr.2)
      else if ['t', 'r', 'u', 'e'].isPrefixOf cs then .ok (Py.bool true, cs.drop 4)
      else if ['f', 'a', 'l', 's', 'e'].isPrefixOf cs then .ok (Py.bool false, cs.drop 5)
      else if ['n', 'u', 'l', 'l'].isPrefixOf cs then .ok (Py.none, cs.drop 4)
      else if ['N', 'a', 'N'].isPrefixOf cs then .ok (Py.nan, cs.drop 3)
      else if ['I', 'n', 'f', 'i', 'n', 'i', 't', 'y'].isPrefixOf cs then
        .ok (Py.inf false, cs.drop 8)
      else if ['-', 'I', 'n', 'f', 'i', 'n', 'i', 't', 'y'].isPrefixOf cs then
        .ok (Py.inf true, cs.drop 9)
      else if c = '-' ∨ c.isDigit then parseNumber cs
      else throw (PyErr.jsonDecodeError "Expecting value")

/-- Parse the members of a JSON object after `{` (with at least one
member present), accumulating into a dict with `dictSet` so that a
duplicate key overwrites its earlier value, as in CPython. -/
def parseMembers : Nat → List Char → List (String × Py) → Except PyErr (Py × List Char)
  | 0, _, _ => throw PyErr.recursionError
  | fuel + 1, cs, acc =>
    match cs with
    | c :: rest =>
      if c = quoteChar then do
        let kr ← parseStringBody (rest.length + 1) [] rest
        let r2 := skipJsonWs kr.2
        match r2 with
        | c2 :: r3 =>
          if c2 = ':' then do
            let vr ← parseValue fuel r3
            let acc1 := dictSet acc kr.1 vr.1
            let r5 := skipJsonWs vr.2
            match r5 with
            | c5 :: r6 =>
              if c5 = ',' then parseMembers fuel (skipJsonWs r6) acc1
              else if c5 = rbraceChar then .ok (Py.dict acc1, r6)
              else throw (PyErr.jsonDecodeError "Expecting ',' delimiter")
            | [] => throw (PyErr.jsonDecodeError "Expecting ',' delimiter")
          else throw (PyErr.jsonDecodeError "Expecting ':' delimiter")
        | [] => throw (PyErr.jsonDecodeError "Expecting ':' delimiter")
      else throw (PyErr.jsonDecodeError "Expecting property name enclosed in double quotes")
    | [] => throw (PyErr.jsonDecodeError "Expecting property name enclosed in double quotes")

/-- Parse the elements of a JSON array after `[` (with at least one
element present). -/
def parseElems : Nat → List Char → List Py → Except PyErr (Py × List Char)
  | 0, _, _ => throw PyErr.recursionError
  | fuel + 1, cs, acc => do
    let vr ← parseValue fuel cs
    let acc1 := vr.1 :: acc
    let r2 := skipJsonWs vr.2
    match r2 with
    | c :: r3 =>
      if c = ',' then parseElems fuel r3 acc1
      else if c = ']' then .ok (Py.list acc1.reverse, r3)
      else throw (PyErr.jsonDecodeError "Expecting ',' delimiter")
    | [] => throw (PyErr.jsonDecodeError "Expecting ',' delimiter")

end

/-- Model of `json.loads`: parse one value, then require only whitespace
up to the end of input (otherwise `Extra data`). -/
def jsonLoads (s : String) : Except PyErr Py := do
  let cs := s.toList
  let vr ← parseValue (cs.length + 1) cs
  match skipJsonWs vr.2 with
  | [] => .ok vr.1
  | _ => throw (PyErr.jsonDecodeError "Extra data")

/-! ### The response normalizer `_parse_score_response`

The try-block of `_parse_score_response` is translated into the `Except`
monad (`parseTryStr`); the two `except` clauses become the two failure
dictionaries.  For non-string input the debug slice `response_text[:500]`
(or, for a list, the subsequent `.strip()`) raises before anything else,
which the top-level dispatcher `parseScoreResponseE` models. -/

/-- Truncation towards zero of a rational, as Python `int()` applied to a
float. -/
def ratTrunc (q : Rat) : Int := Int.tdiv q.num (q.den : Int)

/-- Python `int(s)` on a string: optional surrounding whitespace, optional
sign, then decimal digits (digit-group underscores are not modelled). -/
def pyIntOfStr (s : String) : Except PyErr Int :=
  let cs := pyStripChars s.toList
  let signed : Bool × List Char :=
    match cs with
    | c :: rest => if c = '-' then (true, rest) else if c = '+' then (false, rest) else (false, cs)
    | [] => (false, [])
  let ds := signed.2
  if ds ≠ [] ∧ ds.all Char.isDigit then
    .ok (if signed.1 then -(digitsToNat ds : Int) else (digitsToNat ds : Int))
  else
    throw (PyErr.valueError ("invalid literal for int() with base 10: \x27" ++ s ++ "\x27"))

/-- Python `int(v)` on a modelled value. -/
def pyIntOf : Py → Except PyErr Int
  | .int n => .ok n
  | .bool b => .ok (if b then 1 else 0)
  | .float q => .ok (ratTrunc q)
  | .nan => throw (PyErr.valueError "cannot convert float NaN to integer")
  | .inf _ => throw (PyErr.valueError "cannot convert float infinity to integer")
  | .str s => pyIntOfStr s
  | Py.none =>
    throw (PyErr.typeError
      "int() argument must be a string, a bytes-like object or a real number, not \x27NoneType\x27")
  | .list _ =>
    throw (PyErr.typeError
      "int() argument must be a string, a bytes-like object or a real number, not \x27list\x27")
  | .dict _ =>
    throw (PyErr.typeError
      "int() argument must be a string, a bytes-like object or a real number, not \x27dict\x27")

/-- `max(0, min(100, n))`. -/
def clampScore (n : Int) : Int := max 0 (min 100 n)

/-- The cleaning pipeline of `_parse_score_response`: strip, remove a
leading ```` ```json ```` or ```` ``` ```` fence, remove a trailing
```` ``` ```` fence, strip again, then keep the span found by
`re.search(r'\{[\s\S]*\}', ...)` if there is one. -/
def cleanResponse (s : String) : String :=
  let cs := pyStripChars s.toList
  let fence := [backquoteChar, backquoteChar, backquoteChar]
  let cs :=
    if (fence ++ ['j', 's', 'o', 'n']).isPrefixOf cs then cs.drop 7
    else if fence.isPrefixOf cs then cs.drop 3
    else cs
  let cs := if fence.isSuffixOf cs then cs.take (cs.length - 3) else cs
  let cs := pyStripChars cs
  match reSearchBrace cs with
  | some span => String.mk span
  | Option.none => String.mk cs

/-- The per-field defaults of the success branch, in source order. -/
def analysisDefaults : List (String × Py) :=
  [("executive_summary", Py.str "Analysis in progress..."),
   ("market_analysis", Py.str "Market data being analyzed..."),
   ("origin_analysis", Py.str "Origin analysis pending..."),
   ("buyer_profile", Py.str "Buyer analysis pending..."),
   ("price_analysis", Py.str "Price analysis pending..."),
   ("payment_logistics", Py.str "Payment analysis pending..."),
   ("red_flags", Py.list []),
   ("unusual_patterns", Py.list []),
   ("strengths", Py.list []),
   ("next_steps", Py.list []),
   ("reasoning", Py.list []),
   ("recommendation", Py.str "Review detailed analysis"),
   ("risk_level", Py.str "medium")]

/-- The defaults loop: `for key, default_value in defaults.items(): if key
not in result: result[key] = default_value`. -/
def fillDefaults : List (String × Py) → List (String × Py) → List (String × Py)
  | [], d => d
  | (k, v) :: rest, d =>
    fillDefaults rest (if (dlookup d k).isSome then d else d ++ [(k, v)])

/-- The try-block of `_parse_score_response` on a string input: clean,
`json.loads`, check and clamp `score`, fill defaults.  A non-dict parse
result raises exactly where CPython would (`'score' in result` is a
substring test on strings, raises `TypeError` on non-iterables;
`result['score']` raises `TypeError` on strings and lists). -/
def parseTryStr (s : String) : Except PyErr (List (String × Py)) := do
  let parsed ← jsonLoads (cleanResponse s)
  match parsed with
  | .dict d =>
    match dlookup d "score" with
    | some v => do
      let n ← pyIntOf v
      .ok (fillDefaults analysisDefaults (dictSet d "score" (Py.int (clampScore n))))
    | Option.none => throw (PyErr.valueError "Response missing \x27score\x27 field")
  | .str s2 =>
    if containsChars s2.toList ['s', 'c', 'o', 'r', 'e'] then
      throw (PyErr.typeError "string indices must be integers")
    else throw (PyErr.valueError "Response missing \x27score\x27 field")
  | .list xs =>
    if xs.any (fun x => match x with | .str s3 => s3 = "score" | _ => false) then
      throw (PyErr.typeError "list indices must be integers or slices, not str")
    else throw (PyErr.valueError "Response missing \x27score\x27 field")
  | other =>
    throw (PyErr.typeError ("argument of type \x27" ++ pyTypeName other ++ "\x27 is not iterable"))

/-- The `except json.JSONDecodeError` branch: best-effort score recovery
by regex on the raw text (unclamped), warning summary embedding the first
1000 characters of the raw response, fixed placeholder fields. -/
def jsonFailureDict (responseText : String) (errMsg : String) : List (String × Py) :=
  let score : Int :=
    match scoreSearch responseText.toList with
    | some n => (n : Int)
    | Option.none => 50
  [("score", Py.int score),
   ("executive_summary",
     Py.str ("Warning: JSON Parsing Error. Raw response:\n\n"
       ++ String.mk (responseText.toList.take 1000))),
   ("market_analysis", Py.str "See Executive Summary for raw AI response"),
   ("origin_analysis", Py.str "See Executive Summary for raw AI response"),
   ("buyer_profile", Py.str "See Executive Summary for raw AI response"),
   ("price_analysis", Py.str "See Executive Summary for raw AI response"),
   ("payment_logistics", Py.str "See Executive Summary for raw AI response"),
   ("red_flags", Py.list [Py.str ("JSON parsing failed: " ++ errMsg)]),
   ("unusual_patterns", Py.list []),
   ("strengths", Py.list []),
   ("next_steps",
     Py.list [Py.str "Check server console for full response", Py.str "Try re-running analysis"]),
   ("reasoning", Py.list [Py.str "Warning: AI returned invalid JSON format"]),
   ("recommendation", Py.str "Check console output or try again"),
   ("risk_level", Py.str "medium")]

/-- The generic `except Exception` branch. -/
def genericFailureDict (errMsg : String) : List (String × Py) :=
  [("score", Py.int 50),
   ("executive_summary", Py.str ("Warning: Error: " ++ errMsg)),
   ("market_analysis", Py.str "Error occurred"),
   ("origin_analysis", Py.str "Error occurred"),
   ("buyer_profile", Py.str "Error occurred"),
   ("price_analysis", Py.str "Error occurred"),
   ("payment_logistics", Py.str "Error occurred"),
   ("red_flags", Py.list [Py.str errMsg]),
   ("unusual_patterns", Py.list []),
   ("strengths", Py.list []),
   ("next_steps", Py.list [Py.str "Check error message", Py.str "Try again"]),
   ("reasoning", Py.list [Py.str "Warning: Unexpected error occurred"]),
   ("recommendation", Py.str "Try running analysis again"),
   ("risk_level", Py.str "medium")]

/-- The exception raised for a non-string `response_text` before any
parsing: the debug slice `response_text[:500]` is not defined on
non-subscriptable values (and a dict rejects a slice index); a list
survives the slice but has no `.strip()`. -/
def initialAccessError : Py → PyErr
  | Py.none => PyErr.typeError "\x27NoneType\x27 object is not subscriptable"
  | .bool _ => PyErr.typeError "\x27bool\x27 object is not subscriptable"
  | .int _ => PyErr.typeError "\x27int\x27 object is not subscriptable"
  | .float _ => PyErr.typeError "\x27float\x27 object is not subscriptable"
  | .nan => PyErr.typeError "\x27float\x27 object is not subscriptable"
  | .inf _ => PyErr.typeError "\x27float\x27 object is not subscriptable"
  | .dict _ => PyErr.typeError "unhashable type: \x27slice\x27"
  | .list _ => PyErr.attributeError "\x27list\x27 object has no attribute \x27strip\x27"
  | .str _ => PyErr.typeError "unreachable for strings"

/-- `_parse_score_response` with the exception flow explicit: the result
is `.ok` exactly when no exception escapes to the caller.  The
`except json.JSONDecodeError` clause handles only that error; the
`except Exception` clause handles every other modelled exception. -/
def parseScoreResponseE : Py → Except PyErr (List (String × Py))
  | .str s =>
    match parseTryStr s with
    | .ok r => .ok r
    | .error (PyErr.jsonDecodeError m) => .ok (jsonFailureDict s m)
    | .error e => .ok (genericFailureDict e.msg)
  | other => .ok (genericFailureDict (initialAccessError other).msg)

/-- `_parse_score_response` as the caller sees it (the empty dict stands
for an escaped exception and is proved unreachable). -/
def parseScoreResponse (input : Py) : List (String × Py) :=
  match parseScoreResponseE input with
  | .ok r => r
  | .error _ => []

/-- `_parse_score_response` on a string argument. -/
def parseScoreStr (s : String) : List (String × Py) := parseScoreResponse (Py.str s)

/-! ### Python `str()` rendering (used by the f-strings of the builder) -/

/-- Digits of `fp` zero-padded on the left to `k` places. -/
def padDigits (k : Nat) (fp : Nat) : List Char :=
  let ds := natDigitsF (fp + 1) fp
  List.replicate (k - ds.length) '0' ++ ds

/-- Count how often `p` divides `n` (fuel-based). -/
def multiplicityF (p : Nat) : Nat → Nat → Nat
  | 0, _ => 0
  | f + 1, n => if n % p = 0 ∧ 0 < n ∧ 1 < p then 1 + multiplicityF p f (n / p) else 0

/-- Python float rendering, modelled exactly for rationals with a
power-of-ten denominator (always at least one fractional digit); other
rationals cannot arise from parsed JSON and get a fraction rendering. -/
def pyFloatStr (q : Rat) : String :=
  let den := q.den
  let a := multiplicityF 2 den den
  let b := multiplicityF 5 den den
  let k := max 1 (max a b)
  if den ∣ 10 ^ k then
    let m := q.num.natAbs * (10 ^ k / den)
    (if q.num < 0 then "-" else "") ++ natStr (m / 10 ^ k) ++ "." ++
      String.mk (padDigits k (m % 10 ^ k))
  else intStr q.num ++ "/" ++ natStr den

mutual

/-- Python `repr()` of a modelled value (string quoting simplified to
plain single quotes; containers render their elements with `repr`, as
CPython does). -/
def pyReprV : Py → String
  | Py.none => "None"
  | .bool true => "True"
  | .bool false => "False"
  | .int n => intStr n
  | .float q => pyFloatStr q
  | .nan => "nan"
  | .inf true => "-inf"
  | .inf false => "inf"
  | .str s => "\x27" ++ s ++ "\x27"
  | .list xs => "[" ++ pyReprL xs ++ "]"
  | .dict kvs => String.mk [lbraceChar] ++ pyReprM kvs ++ String.mk [rbraceChar]

/-- Comma-joined `repr`s of list elements. -/
def pyReprL : List Py → String
  | [] => ""
  | [x] => pyReprV x
  | x :: y :: rest => pyReprV x ++ ", " ++ pyReprL (y :: rest)

/-- Comma-joined `repr`s of dict entries. -/
def pyReprM : List (String × Py) → String
  | [] => ""
  | [(k, v)] => "\x27" ++ k ++ "\x27: " ++ pyReprV v
  | (k, v) :: kv2 :: rest => "\x27" ++ k ++ "\x27: " ++ pyReprV v ++ ", " ++ pyReprM (kv2 :: rest)

end

/-- Python `str()` of a modelled value: like `repr`, except that a
top-level string renders without quotes. -/
def pyStr (v : Py) : String :=
  match v with
  | .str s => s
  | other => pyReprV other

/-! ### The prompt builder `_build_scoring_prompt` -/

/-- `deal_data.get('price_type') == 'lme_discount'`. -/
def isLmeDiscount (deal : List (String × Py)) : Bool :=
  match dlookup deal "price_type" with
  | some (Py.str s) => s = "lme_discount"
  | _ => false

/-- The `price_info` local of `_build_scoring_prompt` (note the ASCII
hyphen in the LME template, and Python truthiness for the plain-price
branch). -/
def price_info (deal : List (String × Py)) : String :=
  if isLmeDiscount deal then
    "LME Discount Pricing - Gross: " ++ pyStr (pyGet deal "gross_discount")
      ++ "%, Commission: " ++ pyStr (pyGet deal "commission")
      ++ "%, Net: " ++ pyStr (pyGet deal "net_discount") ++ "%"
  else if pyTruthy (pyGet deal "price") then
    pyStr (pyGet deal "price") ++ " " ++ pyStr (pyGetD deal "price_currency" (Py.str "USD"))
  else "Not specified"

/-- The part of the user prompt before the `Price: ` label. -/
def promptPre (deal : List (String × Py)) : String :=
  "Analyze this commodity trading deal and provide COMPREHENSIVE, DETAILED analysis.\n\n"
  ++ "**DEAL DETAILS:**\n"
  ++ "Commodity: " ++ pyStr (pyGetD deal "commodity_type" (Py.str "Not specified")) ++ "\n"
  ++ "Source: " ++ pyStr (pyGetD deal "source_name" (Py.str "Unknown"))
  ++ " (Reliability: " ++ pyStr (pyGetD deal "source_reliability" (Py.str "N/A")) ++ "/10)\n"

/-- The part of the user prompt after `price_info`. -/
def promptPost (deal : List (String × Py)) : String :=
  "\nQuantity: " ++ pyStr (pyGetD deal "quantity" (Py.str "Not specified"))
  ++ " " ++ pyStr (pyGetD deal "quantity_unit" (Py.str "")) ++ "\n"
  ++ "Origin: " ++ pyStr (pyGetD deal "origin_country" (Py.str "Not specified")) ++ "\n"
  ++ "Payment Method: " ++ pyStr (pyGetD deal "payment_method" (Py.str "Not specified")) ++ "\n"
  ++ "Shipping Terms: " ++ pyStr (pyGetD deal "shipping_terms" (Py.str "Not specified")) ++ "\n\n"
  ++ "**RAW DEAL TEXT:**\n"
  ++ pyStr (pyGetD deal "deal_text" (Py.str "No additional details provided")) ++ "\n\n"
  ++ "**ADDITIONAL NOTES:**\n"
  ++ pyStr (pyGetD deal "additional_notes" (Py.str "None")) ++ "\n\n"
  ++ "Provide a professional analysis with:\n"
  ++ "- Focused 2-3 paragraph assessments for each section\n"
  ++ "- Specific numbers, facts, and market context\n"
  ++ "- Clear lists of risks, strengths, and action items (5-8 items each)\n"
  ++ "- Score from 0-100 based on the scoring criteria\n\n"
  ++ "Return your analysis as a valid JSON object following the exact format specified in the "
  ++ "system prompt. Keep responses concise to avoid truncation."

/-- `_build_scoring_prompt`: the deal-specific user prompt. -/
def build_scoring_prompt (deal : List (String × Py)) : String :=
  promptPre deal ++ "Price: " ++ price_info deal ++ promptPost deal

/-! ### `score_deal` -/

/-- `score_deal`: the model invocation is an external collaborator, passed
here as `Except String String` (raw response text, or an invocation
error).  On success the response is normalized and five fields are
assembled; on invocation failure the tagged failure dictionary is
returned.  The inner `_ , _` case models the (unreachable) `KeyError`
path of `result['score']` / `result['reasoning']`, which the same
`except` clause would catch. -/
def score_deal (deal_data : List (String × Py)) (invocation : Except String String) :
    List (String × Py) :=
  let _prompt := build_scoring_prompt deal_data
  match invocation with
  | .error e =>
    [("success", Py.bool false), ("error", Py.str e), ("score", Py.none),
     ("reasoning", Py.list [])]
  | .ok response_text =>
    let result := parseScoreStr response_text
    match dlookup result "score", dlookup result "reasoning" with
    | some sc, some rs =>
      [("success", Py.bool true),
       ("score", sc),
       ("reasoning", rs),
       ("recommendation", pyGetD result "recommendation" (Py.str "")),
       ("risk_level", pyGetD result "risk_level" (Py.str "medium"))]
    | _, _ =>
      [("success", Py.bool false), ("error", Py.str "KeyError"), ("score", Py.none),
       ("reasoning", Py.list [])]

/-! ### A canonical JSON encoder (for the round-trip property)

The spec's idempotence property re-encodes the Normalizer's result as
JSON text.  `pyEncode` is a canonical such encoding: standard JSON with
`", "` and `": "` separators, strings escaped with `\"`, `\\` and
`\u00XX` for control characters, floats printed as finite decimals.
Encoding is partial (`Option`): it requires every dict to have distinct
keys and every float to have a decimal-representable value, which is the
case for everything `json.loads` can produce. -/

/-- Lowercase hexadecimal digit character. -/
def hexDigitChar : Nat → Char
  | 0 => '0'
  | 1 => '1'
  | 2 => '2'
  | 3 => '3'
  | 4 => '4'
  | 5 => '5'
  | 6 => '6'
  | 7 => '7'
  | 8 => '8'
  | 9 => '9'
  | 10 => 'a'
  | 11 => 'b'
  | 12 => 'c'
  | 13 => 'd'
  | 14 => 'e'
  | _ => 'f'

/-- JSON escape of one character. -/
def encodeStringChar (c : Char) : List Char :=
  if c = quoteChar then [backslashChar, quoteChar]
  else if c = backslashChar then [backslashChar, backslashChar]
  else if c.toNat < 32 then
    [backslashChar, 'u', '0', '0', hexDigitChar (c.toNat / 16), hexDigitChar (c.toNat % 16)]
  else [c]

/-- JSON escape of a character list. -/
def encodeStringBody : List Char → List Char
  | [] => []
  | c :: cs => encodeStringChar c ++ encodeStringBody cs

/-- A JSON string literal, quotes included. -/
def encodeString (s : String) : List Char :=
  quoteChar :: (encodeStringBody s.toList ++ [quoteChar])

/-- Digit characters of a natural number. -/
def natChars (n : Nat) : List Char := natDigitsF (n + 1) n

/-- Digit characters of an integer, with sign. -/
def intChars (n : Int) : List Char :=
  if n < 0 then '-' :: natChars n.natAbs else natChars n.natAbs

/-- The number of decimal places used to encode a float with denominator
`den` (when `den` divides a power of ten). -/
def decK (den : Nat) : Nat := max 1 (max (multiplicityF 2 den den) (multiplicityF 5 den den))

/-- The scaled numerator of a decimal float encoding. -/
def decM (q : Rat) : Nat := q.num.natAbs * (10 ^ decK q.den / q.den)

/-- Finite-decimal encoding of a rational, when its reduced denominator
divides a power of ten (at least one fractional digit). -/
def encodeFloat? (q : Rat) : Option (List Char) :=
  if q.den ∣ 10 ^ decK q.den then
    some ((if q.num < 0 then ['-'] else []) ++
      (natChars (decM q / 10 ^ decK q.den) ++
        '.' :: padDigits (decK q.den) (decM q % 10 ^ decK q.den)))
  else Option.none

/-- Do all keys of an association list differ? -/
def nodupKeysB : List (String × Py) → Bool
  | [] => true
  | (k, _) :: rest => rest.all (fun kv => kv.1 ≠ k) && nodupKeysB rest

mutual

/-- Canonical JSON encoding of a value (`none` when some dict has a
duplicate key or some float is not decimal-representable). -/
def pyEncV : Py → Option (List Char)
  | Py.none => some ['n', 'u', 'l', 'l']
  | .bool true => some ['t', 'r', 'u', 'e']
  | .bool false => some ['f', 'a', 'l', 's', 'e']
  | .int n => some (intChars n)
  | .float q => encodeFloat? q
  | .nan => some ['N', 'a', 'N']
  | .inf false => some ['I', 'n', 'f', 'i', 'n', 'i', 't', 'y']
  | .inf true => some ['-', 'I', 'n', 'f', 'i', 'n', 'i', 't', 'y']
  | .str s => some (encodeString s)
  | .list [] => some ['[', ']']
  | .list (x :: xs) =>
    match pyEncV x, pyEncL xs with
    | some h, some t => some ('[' :: (h ++ t) ++ [']'])
    | _, _ => Option.none
  | .dict [] => some [lbraceChar, rbraceChar]
  | .dict ((k, v) :: rest) =>
    match pyEncV v, pyEncM rest with
    | some ev, some t =>
      if rest.all (fun kv => kv.1 ≠ k) ∧ nodupKeysB rest then
        some (lbraceChar :: (encodeString k ++ ':' :: ' ' :: ev ++ t) ++ [rbraceChar])
      else Option.none
    | _, _ => Option.none

/-- Encodings of the remaining list elements, each preceded by `", "`. -/
def pyEncL : List Py → Option (List Char)
  | [] => some []
  | x :: xs =>
    match pyEncV x, pyEncL xs with
    | some h, some t => some (',' :: ' ' :: (h ++ t))
    | _, _ => Option.none

/-- Encodings of the remaining dict members, each preceded by `", "`. -/
def pyEncM : List (String × Py) → Option (List Char)
  | [] => some []
  | (k, v) :: rest =>
    match pyEncV v, pyEncM rest with
    | some ev, some t => some (',' :: ' ' :: (encodeString k ++ ':' :: ' ' :: ev ++ t))
    | _, _ => Option.none

end

/-- Canonical JSON encoding of a value as a string. -/
def pyEncode (v : Py) : Option String := (pyEncV v).map String.mk

/-! ### Helper lemmas about dict operations -/

theorem dlookup_dictSet_self (d : List (String × Py)) (k : String) (v : Py) :
    dlookup (dictSet d k v) k = some v := by
  induction d with
  | nil => simp [dictSet, dlookup]
  | cons kv rest ih =>
    obtain ⟨k0, w⟩ := kv
    by_cases h : k0 = k
    · simp [dictSet, h, dlookup]
    · simp [dictSet, h, dlookup, ih]

theorem dlookup_dictSet_ne (d : List (String × Py)) (k k' : String) (v : Py) (h : k' ≠ k) :
    dlookup (dictSet d k v) k' = dlookup d k' := by
  induction d with
  | nil =>
    have hne : ¬ k = k' := fun hh => h hh.symm
    simp [dictSet, dlookup, hne]
  | cons kv rest ih =>
    obtain ⟨k0, w⟩ := kv
    by_cases h0 : k0 = k
    · have hne : ¬ k = k' := fun hh => h hh.symm
      simp [dictSet, h0, dlookup, hne]
    · simp only [dictSet, if_neg h0, dlookup]
      by_cases h1 : k0 = k'
      · simp [h1]
      · simp [h1, ih]

theorem dlookup_append_single_ne (d : List (String × Py)) (k k' : String) (v : Py)
    (h : k' ≠ k) : dlookup (d ++ [(k, v)]) k' = dlookup d k' := by
  induction d with
  | nil =>
    have hne : ¬ k = k' := fun hh => h hh.symm
    simp [dlookup, hne]
  | cons kv rest ih =>
    by_cases h1 : kv.1 = k'
    · simp [dlookup, h1]
    · simp [dlookup, h1, ih]

theorem dlookup_append_single_self (d : List (String × Py)) (k : String) (v : Py)
    (h : dlookup d k = Option.none) : dlookup (d ++ [(k, v)]) k = some v := by
  induction d with
  | nil => simp [dlookup]
  | cons kv rest ih =>
    by_cases h1 : kv.1 = k
    · simp [dlookup, h1] at h
    · simp [dlookup, h1] at h ⊢
      exact ih h

theorem fillDefaults_lookup_isSome (defs : List (String × Py)) (d : List (String × Py))
    (k : String) (h : (dlookup d k).isSome) :
    dlookup (fillDefaults defs d) k = dlookup d k := by
  induction defs generalizing d with
  | nil => simp [fillDefaults]
  | cons kv rest ih =>
    obtain ⟨k0, v0⟩ := kv
    simp only [fillDefaults]
    by_cases hp : (dlookup d k0).isSome
    · simp only [if_pos hp]
      exact ih d h
    · simp only [if_neg hp]
      have hne : k ≠ k0 := by
        intro he
        rw [he] at h
        exact hp h
      rw [ih (d ++ [(k0, v0)]) (by rwa [dlookup_append_single_ne d k0 k v0 hne]),
        dlookup_append_single_ne d k0 k v0 hne]

theorem fillDefaults_preserves_isSome (defs : List (String × Py)) (d : List (String × Py))
    (k : String) (h : (dlookup d k).isSome) :
    (dlookup (fillDefaults defs d) k).isSome := by
  rw [fillDefaults_lookup_isSome defs d k h]
  exact h

theorem fillDefaults_covers (defs : List (String × Py)) (d : List (String × Py))
    (k : String) (h : k ∈ defs.map Prod.fst) :
    (dlookup (fillDefaults defs d) k).isSome := by
  induction defs generalizing d with
  | nil => simp at h
  | cons kv rest ih =>
    obtain ⟨k0, v0⟩ := kv
    simp only [fillDefaults]
    by_cases hp : (dlookup d k0).isSome
    · simp only [if_pos hp]
      rcases (by simpa using h : k = k0 ∨ k ∈ rest.map Prod.fst) with he | hm
      · subst he
        exact fillDefaults_preserves_isSome rest d k hp
      · exact ih _ hm
    · simp only [if_neg hp]
      rcases (by simpa using h : k = k0 ∨ k ∈ rest.map Prod.fst) with he | hm
      · subst he
        refine fillDefaults_preserves_isSome rest _ k ?_
        rw [dlookup_append_single_self d k v0 (by
          cases hd : dlookup d k with
          | none => rfl
          | some w => rw [hd] at hp; simp at hp)]
        rfl
      · exact ih _ hm

theorem fillDefaults_lookup_missing (defs : List (String × Py)) (d : List (String × Py))
    (k : String) (v : Py) (hmem : (k, v) ∈ defs) (hnone : dlookup d k = Option.none)
    (hnd : (defs.map Prod.fst).Nodup) :
    dlookup (fillDefaults defs d) k = some v := by
  induction defs generalizing d with
  | nil => simp at hmem
  | cons kv rest ih =>
    obtain ⟨k0, v0⟩ := kv
    simp only [List.map_cons, List.nodup_cons] at hnd
    rcases List.mem_cons.mp hmem with he | hm
    · obtain ⟨hk, hv⟩ := Prod.mk.injEq .. ▸ he
      subst hk
      simp only [fillDefaults, hnone, Option.isSome_none, Bool.false_eq_true, if_neg,
        if_false]
      rw [fillDefaults_lookup_isSome rest _ k (by
            rw [dlookup_append_single_self d k v0 hnone]; rfl),
        dlookup_append_single_self d k v0 hnone, hv]
    · have hne : k ≠ k0 := by
        intro he2
        exact hnd.1 (he2 ▸ (List.mem_map.mpr ⟨(k, v), hm, rfl⟩))
      simp only [fillDefaults]
      by_cases hp : (dlookup d k0).isSome
      · simp only [if_pos hp]
        exact ih _ hm hnone hnd.2
      · simp only [if_neg hp]
        exact ih _ hm (by rwa [dlookup_append_single_ne d k0 k v0 hne]) hnd.2

theorem fillDefaults_lookup_not_mem (defs : List (String × Py)) (d : List (String × Py))
    (k : String) (h : k ∉ defs.map Prod.fst) :
    dlookup (fillDefaults defs d) k = dlookup d k := by
  induction defs generalizing d with
  | nil => simp [fillDefaults]
  | cons kv rest ih =>
    obtain ⟨k0, v0⟩ := kv
    simp only [List.map_cons, List.mem_cons] at h
    push_neg at h
    simp only [fillDefaults]
    by_cases hp : (dlookup d k0).isSome
    · simp only [if_pos hp]
      exact ih _ h.2
    · simp only [if_neg hp]
      rw [ih _ h.2, dlookup_append_single_ne d k0 k v0 h.1]

/-! ### Branch characterization of the normalizer -/

/-- The fourteen fields of an AnalysisResult. -/
def expectedKeys : List String :=
  ["score", "executive_summary", "market_analysis", "origin_analysis", "buyer_profile",
   "price_analysis", "payment_logistics", "red_flags", "unusual_patterns", "strengths",
   "next_steps", "reasoning", "recommendation", "risk_level"]

/-- The numeric value of a parsed score field, when it is a (finite)
number. -/
def scoreNum : Py → Option Rat
  | Py.int n => some (n : Rat)
  | Py.float q => some q
  | _ => Option.none

theorem parseTryStr_ok_shape (s : String) (r : List (String × Py))
    (h : parseTryStr s = .ok r) :
    ∃ d v n, jsonLoads (cleanResponse s) = .ok (Py.dict d) ∧ dlookup d "score" = some v ∧
      pyIntOf v = .ok n ∧
      r = fillDefaults analysisDefaults (dictSet d "score" (Py.int (clampScore n))) := by
  unfold parseTryStr at h
  cases hj : jsonLoads (cleanResponse s) with
  | error e => rw [hj] at h; simp [Bind.bind, Except.bind] at h
  | ok parsed =>
    rw [hj] at h
    simp only [Bind.bind, Except.bind] at h
    split at h
    case h_1 d =>
      cases hl : dlookup d "score" with
      | none => simp [hl, throw, throwThe, MonadExceptOf.throw] at h
      | some v =>
        simp only [hl] at h
        cases hn : pyIntOf v with
        | error e => simp [hn] at h
        | ok n =>
          simp only [hn, Except.ok.injEq] at h
          exact ⟨d, v, n, rfl, hl, hn, h.symm⟩
    case h_2 s2 => split at h <;> simp [throw, throwThe, MonadExceptOf.throw] at h
    case h_3 xs => split at h <;> simp [throw, throwThe, MonadExceptOf.throw] at h
    case h_4 => simp [throw, throwThe, MonadExceptOf.throw] at h

theorem parseTryStr_ok_of (s : String) (d : List (String × Py)) (v : Py) (n : Int)
    (hj : jsonLoads (cleanResponse s) = .ok (Py.dict d))
    (hl : dlookup d "score" = some v) (hn : pyIntOf v = .ok n) :
    parseTryStr s = .ok (fillDefaults analysisDefaults (dictSet d "score"
      (Py.int (clampScore n)))) := by
  simp [parseTryStr, hj, Bind.bind, Except.bind, hl, hn]

theorem parseScoreStr_of_ok (s : String) (r : List (String × Py))
    (h : parseTryStr s = .ok r) : parseScoreStr s = r := by
  simp [parseScoreStr, parseScoreResponse, parseScoreResponseE, h]

theorem parseScoreStr_of_jsonErr (s : String) (m : String)
    (h : parseTryStr s = .error (PyErr.jsonDecodeError m)) :
    parseScoreStr s = jsonFailureDict s m := by
  simp [parseScoreStr, parseScoreResponse, parseScoreResponseE, h]

theorem parseScoreStr_of_valueErr (s : String) (m : String)
    (h : parseTryStr s = .error (PyErr.valueError m)) :
    parseScoreStr s = genericFailureDict m := by
  simp [parseScoreStr, parseScoreResponse, parseScoreResponseE, h, PyErr.msg]

theorem jsonFailureDict_hasKeys (s m : String) :
    ∀ k ∈ expectedKeys, (dlookup (jsonFailureDict s m) k).isSome := by
  intro k hk
  fin_cases hk <;> simp [jsonFailureDict, dlookup]

theorem genericFailureDict_hasKeys (m : String) :
    ∀ k ∈ expectedKeys, (dlookup (genericFailureDict m) k).isSome := by
  intro k hk
  fin_cases hk <;> simp [genericFailureDict, dlookup]

theorem successDict_hasKeys (d : List (String × Py)) (v : Py) :
    ∀ k ∈ expectedKeys, (dlookup (fillDefaults analysisDefaults (dictSet d "score" v)) k).isSome := by
  intro k hk
  fin_cases hk
  · exact fillDefaults_preserves_isSome _ _ _ (by rw [dlookup_dictSet_self]; rfl)
  all_goals exact fillDefaults_covers _ _ _ (by simp [analysisDefaults])

/-- Shared helper: every branch of the normalizer returns a dictionary
containing all fourteen expected fields. -/
theorem parseScoreResponse_hasKeys (input : Py) :
    ∀ k ∈ expectedKeys, (dlookup (parseScoreResponse input) k).isSome := by
  cases input with
  | str s =>
    rw [show parseScoreResponse (Py.str s) = parseScoreStr s from rfl]
    cases h : parseTryStr s with
    | ok r =>
      obtain ⟨d, v, n, _, _, _, hr⟩ := parseTryStr_ok_shape s r h
      rw [parseScoreStr_of_ok s r h, hr]
      exact successDict_hasKeys d _
    | error e =>
      cases e with
      | jsonDecodeError m =>
        rw [parseScoreStr_of_jsonErr s m h]
        exact jsonFailureDict_hasKeys s m
      | valueError m =>
        simp only [parseScoreStr, parseScoreResponse, parseScoreResponseE, h]
        exact genericFailureDict_hasKeys _
      | typeError m =>
        simp only [parseScoreStr, parseScoreResponse, parseScoreResponseE, h]
        exact genericFailureDict_hasKeys _
      | attributeError m =>
        simp only [parseScoreStr, parseScoreResponse, parseScoreResponseE, h]
        exact genericFailureDict_hasKeys _
      | recursionError =>
        simp only [parseScoreStr, parseScoreResponse, parseScoreResponseE, h]
        exact genericFailureDict_hasKeys _
  | none => exact genericFailureDict_hasKeys _
  | bool b => exact genericFailureDict_hasKeys _
  | int n => exact genericFailureDict_hasKeys _
  | float q => exact genericFailureDict_hasKeys _
  | nan => exact genericFailureDict_hasKeys _
  | inf b => exact genericFailureDict_hasKeys _
  | list xs => exact genericFailureDict_hasKeys _
  | dict kvs => exact genericFailureDict_hasKeys _

/-- Shared helper: every branch of the normalizer returns an integer
score. -/
theorem parseScoreResponse_score_int (input : Py) :
    ∃ n : Int, dlookup (parseScoreResponse input) "score" = some (Py.int n) := by
  cases input with
  | str s =>
    rw [show parseScoreResponse (Py.str s) = parseScoreStr s from rfl]
    cases h : parseTryStr s with
    | ok r =>
      obtain ⟨d, v, n, _, _, _, hr⟩ := parseTryStr_ok_shape s r h
      rw [parseScoreStr_of_ok s r h, hr]
      refine ⟨clampScore n, ?_⟩
      rw [fillDefaults_lookup_isSome _ _ _ (by rw [dlookup_dictSet_self]; rfl),
        dlookup_dictSet_self]
    | error e =>
      cases e with
      | jsonDecodeError m =>
        rw [parseScoreStr_of_jsonErr s m h]
        exact ⟨_, rfl⟩
      | valueError m =>
        simp only [parseScoreStr, parseScoreResponse, parseScoreResponseE, h]
        exact ⟨50, rfl⟩
      | typeError m =>
        simp only [parseScoreStr, parseScoreResponse, parseScoreResponseE, h]
        exact ⟨50, rfl⟩
      | attributeError m =>
        simp only [parseScoreStr, parseScoreResponse, parseScoreResponseE, h]
        exact ⟨50, rfl⟩
      | recursionError =>
        simp only [parseScoreStr, parseScoreResponse, parseScoreResponseE, h]
        exact ⟨50, rfl⟩
  | none => exact ⟨50, rfl⟩
  | bool b => exact ⟨50, rfl⟩
  | int n => exact ⟨50, rfl⟩
  | float q => exact ⟨50, rfl⟩
  | nan => exact ⟨50, rfl⟩
  | inf b => exact ⟨50, rfl⟩
  | list xs => exact ⟨50, rfl⟩
  | dict kvs => exact ⟨50, rfl⟩

theorem pyIntOf_scoreNum (v : Py) (q : Rat) (hq : scoreNum v = some q) :
    pyIntOf v = .ok (ratTrunc q) := by
  cases v with
  | int n =>
    simp only [scoreNum, Option.some.injEq] at hq
    subst hq
    simp [pyIntOf, ratTrunc, Rat.num_intCast, Rat.den_intCast, Int.tdiv_one]
  | float q2 =>
    simp only [scoreNum, Option.some.injEq] at hq
    subst hq
    rfl
  | none => simp [scoreNum] at hq
  | bool b => simp [scoreNum] at hq
  | nan => simp [scoreNum] at hq
  | inf b => simp [scoreNum] at hq
  | str s2 => simp [scoreNum] at hq
  | list xs => simp [scoreNum] at hq
  | dict kvs => simp [scoreNum] at hq

/-- C1: for every raw input to `_parse_score_response` — any string, and
any non-string value such as `None` — the call never lets an exception
escape: the explicitly-modelled exception flow always ends in `.ok`, i.e.
an analysis-result dictionary is always returned to the caller. -/
theorem parse_score_response_never_raises (input : Py) :
    ∃ d : List (String × Py), parseScoreResponseE input = .ok d := by
  cases input with
  | str s =>
    cases h : parseTryStr s with
    | ok r => exact ⟨r, by simp [parseScoreResponseE, h]⟩
    | error e =>
      cases e with
      | jsonDecodeError m => exact ⟨jsonFailureDict s m, by simp [parseScoreResponseE, h]⟩
      | valueError m =>
        exact ⟨genericFailureDict (PyErr.valueError m).msg, by simp [parseScoreResponseE, h]⟩
      | typeError m =>
        exact ⟨genericFailureDict (PyErr.typeError m).msg, by simp [parseScoreResponseE, h]⟩
      | attributeError m =>
        exact ⟨genericFailureDict (PyErr.attributeError m).msg, by simp [parseScoreResponseE, h]⟩
      | recursionError =>
        exact ⟨genericFailureDict PyErr.recursionError.msg, by simp [parseScoreResponseE, h]⟩
  | none => exact ⟨_, rfl⟩
  | bool b => exact ⟨_, rfl⟩
  | int n => exact ⟨_, rfl⟩
  | float q => exact ⟨_, rfl⟩
  | nan => exact ⟨_, rfl⟩
  | inf b => exact ⟨_, rfl⟩
  | list xs => exact ⟨_, rfl⟩
  | dict kvs => exact ⟨_, rfl⟩

/-- C2 (amended): for every input, the returned dictionary contains all
fourteen expected fields and the score is an integer.  The stronger
typing constraints of the original claim fail: fields supplied in a
successfully parsed object are passed through unchanged, and the
JSON-decode recovery score is not clamped (see the counterexample). -/
theorem parse_score_response_structure (input : Py) :
    (∀ k ∈ expectedKeys, (dlookup (parseScoreResponse input) k).isSome) ∧
    ∃ n : Int, dlookup (parseScoreResponse input) "score" = some (Py.int n) :=
  ⟨parseScoreResponse_hasKeys input, parseScoreResponse_score_int input⟩

/-- C2 counterexample: a supplied `risk_level` outside {low, medium,
high} is passed through unchanged, and a score recovered by the regex
fallback is not clamped to [0, 100]. -/
theorem parse_score_response_typing_counterexample :
    dlookup (parseScoreStr "\x7b\"score\": 10, \"risk_level\": \"severe\"\x7d") "risk_level"
      = some (Py.str "severe")
  ∧ "severe" ∉ ["low", "medium", "high"]
  ∧ dlookup (parseScoreStr "\"score\": 999") "score" = some (Py.int 999)
  ∧ ¬ ((999 : Int) ≤ 100) :=
  ⟨rfl, by decide, rfl, by decide⟩

/-- C3 (amended): valid JSON without a top-level `score` raises
`ValueError`, which the generic `except Exception` clause (not the
JSON-decode branch) turns into the fixed generic failure dictionary:
score 50 with no pattern search, and an executive summary carrying the
error message rather than the raw output. -/
theorem missing_score_takes_generic_branch (s : String) (d : List (String × Py))
    (hj : jsonLoads (cleanResponse s) = .ok (Py.dict d))
    (hl : dlookup d "score" = Option.none) :
    parseScoreStr s = genericFailureDict "Response missing \x27score\x27 field" := by
  apply parseScoreStr_of_valueErr
  unfold parseTryStr
  rw [hj]
  simp [Bind.bind, Except.bind, hl, throw, throwThe, MonadExceptOf.throw]

/-- C3 counterexample: on `{"inner": {"score": 88}}` — valid JSON with no
top-level score — the step-4 branch described by the claim would recover
score 88 by pattern search and embed the raw text in the summary; the
code instead returns the generic-branch dictionary with score 50 and a
summary carrying only the error message. -/
theorem missing_score_counterexample :
    scoreSearch "\x7b\"inner\": \x7b\"score\": 88\x7d\x7d".toList = some 88
  ∧ dlookup (parseScoreStr "\x7b\"inner\": \x7b\"score\": 88\x7d\x7d") "score"
      = some (Py.int 50)
  ∧ dlookup (parseScoreStr "\x7b\"inner\": \x7b\"score\": 88\x7d\x7d") "executive_summary"
      = some (Py.str "Warning: Error: Response missing \x27score\x27 field")
  ∧ strContains "Warning: Error: Response missing \x27score\x27 field"
      "\x7b\"inner\": \x7b\"score\": 88\x7d\x7d" = false :=
  ⟨rfl, rfl, rfl, by decide⟩

/-- C3 witness. -/
theorem missing_score_takes_generic_branch_witness :
    parseScoreStr "\x7b\"inner\": \x7b\"score\": 88\x7d\x7d"
      = genericFailureDict "Response missing \x27score\x27 field" :=
  missing_score_takes_generic_branch "\x7b\"inner\": \x7b\"score\": 88\x7d\x7d"
    [("inner", Py.dict [("score", Py.int 88)])] rfl rfl

/-- C5: on a successful parse with a numeric score, the resulting score
is the integer truncation of that value saturated into [0, 100]. -/
theorem score_truncated_and_saturated (s : String) (d : List (String × Py)) (v : Py) (q : Rat)
    (hj : jsonLoads (cleanResponse s) = .ok (Py.dict d))
    (hl : dlookup d "score" = some v)
    (hq : scoreNum v = some q) :
    dlookup (parseScoreStr s) "score" = some (Py.int (max 0 (min 100 (ratTrunc q)))) := by
  rw [parseScoreStr_of_ok s _
    (parseTryStr_ok_of s d v (ratTrunc q) hj hl (pyIntOf_scoreNum v q hq))]
  rw [fillDefaults_lookup_isSome _ _ _ (by rw [dlookup_dictSet_self]; rfl),
    dlookup_dictSet_self]
  rfl

/-- C5 witness: `"Sure, here you go: {"score": 105}"` yields score 100,
extracted despite the leading prose. -/
theorem score_truncated_and_saturated_witness :
    jsonLoads (cleanResponse "Sure, here you go: \x7b\"score\": 105\x7d")
      = .ok (Py.dict [("score", Py.int 105)])
  ∧ dlookup (parseScoreStr "Sure, here you go: \x7b\"score\": 105\x7d") "score"
      = some (Py.int 100) := by
  refine ⟨rfl, ?_⟩
  have h := score_truncated_and_saturated "Sure, here you go: \x7b\"score\": 105\x7d"
    [("score", Py.int 105)] (Py.int 105) ((105 : Int) : Rat) rfl rfl rfl
  rw [h]
  rfl

/-- C6 (amended): on a successful parse, every supplied field other than
`score` is passed through unchanged, and each of the thirteen defaulted
fields that is missing from the parsed object receives its fixed default
(`score` itself is normalized by truncation and clamping, so an
out-of-range supplied score is not passed through unchanged — see the
counterexample). -/
theorem supplied_fields_passed_through (s : String) (d : List (String × Py)) (v : Py) (n : Int)
    (hj : jsonLoads (cleanResponse s) = .ok (Py.dict d))
    (hl : dlookup d "score" = some v) (hn : pyIntOf v = .ok n) (k : String) :
    (k ≠ "score" → ∀ w, dlookup d k = some w → dlookup (parseScoreStr s) k = some w)
  ∧ (dlookup d k = Option.none → ∀ dv, (k, dv) ∈ analysisDefaults →
      dlookup (parseScoreStr s) k = some dv) := by
  rw [parseScoreStr_of_ok s _ (parseTryStr_ok_of s d v n hj hl hn)]
  constructor
  · intro hk w hw
    rw [fillDefaults_lookup_isSome _ _ _
      (by rw [dlookup_dictSet_ne d "score" k _ hk, hw]; rfl)]
    rw [dlookup_dictSet_ne d "score" k _ hk, hw]
  · intro hnone dv hmem
    have hk : k ≠ "score" := by
      intro he
      rw [he, hl] at hnone
      cases hnone
    refine fillDefaults_lookup_missing _ _ _ _ hmem ?_ (by decide)
    rw [dlookup_dictSet_ne d "score" k _ hk, hnone]

/-- C6 counterexample: a supplied out-of-range `score` of 105 is not
passed through unchanged — it is clamped to 100 — refuting the claim that
every supplied field passes through unchanged. -/
theorem supplied_fields_counterexample :
    jsonLoads (cleanResponse "\x7b\"score\": 105\x7d") = .ok (Py.dict [("score", Py.int 105)])
  ∧ dlookup (parseScoreStr "\x7b\"score\": 105\x7d") "score" = some (Py.int 100)
  ∧ Py.int 100 ≠ Py.int 105 := by
  refine ⟨rfl, rfl, ?_⟩
  intro h
  injection h with h2
  exact absurd h2 (by decide)

/-- C6 witness: the supplied red_flags list is preserved exactly. -/
theorem supplied_fields_passed_through_witness :
    dlookup (parseScoreStr "\x7b\"score\": 40, \"red_flags\": [\"pricing 22% below LME\"]\x7d")
      "red_flags" = some (Py.list [Py.str "pricing 22% below LME"]) :=
  (supplied_fields_passed_through
    "\x7b\"score\": 40, \"red_flags\": [\"pricing 22% below LME\"]\x7d"
    [("score", Py.int 40), ("red_flags", Py.list [Py.str "pricing 22% below LME"])]
    (Py.int 40) 40 rfl rfl rfl "red_flags").1 (by decide) _ rfl

/-- C7: the fenced input is stripped of its markdown fences and yields
score 82, risk_level "low", every narrative field at its documented
default and every list field empty. -/
theorem markdown_fence_example :
    parseScoreStr "```json\n\x7b\"score\": 82, \"risk_level\": \"low\"\x7d\n```"
      = [("score", Py.int 82), ("risk_level", Py.str "low"),
         ("executive_summary", Py.str "Analysis in progress..."),
         ("market_analysis", Py.str "Market data being analyzed..."),
         ("origin_analysis", Py.str "Origin analysis pending..."),
         ("buyer_profile", Py.str "Buyer analysis pending..."),
         ("price_analysis", Py.str "Price analysis pending..."),
         ("payment_logistics", Py.str "Payment analysis pending..."),
         ("red_flags", Py.list []), ("unusual_patterns", Py.list []),
         ("strengths", Py.list []), ("next_steps", Py.list []),
         ("reasoning", Py.list []),
         ("recommendation", Py.str "Review detailed analysis")] := rfl

/-- C10: when the model invocation succeeds, `score_deal` returns a
dictionary whose keys are exactly success, score, reasoning,
recommendation, risk_level; none of the narrative or list fields of the
normalizer's result are present. -/
theorem score_deal_result_keys (deal : List (String × Py)) (raw : String) :
    (score_deal deal (.ok raw)).map Prod.fst
      = ["success", "score", "reasoning", "recommendation", "risk_level"]
  ∧ ∀ k ∈ ["executive_summary", "market_analysis", "origin_analysis", "buyer_profile",
       "price_analysis", "payment_logistics", "red_flags", "unusual_patterns",
       "strengths", "next_steps"],
      dlookup (score_deal deal (.ok raw)) k = Option.none := by
  have hs := parseScoreResponse_hasKeys (Py.str raw) "score" (by simp [expectedKeys])
  have hr := parseScoreResponse_hasKeys (Py.str raw) "reasoning" (by simp [expectedKeys])
  rw [show parseScoreResponse (Py.str raw) = parseScoreStr raw from rfl] at hs hr
  obtain ⟨sc, hsc⟩ := Option.isSome_iff_exists.mp hs
  obtain ⟨rs, hrs⟩ := Option.isSome_iff_exists.mp hr
  constructor
  · simp only [score_deal, hsc, hrs]
    rfl
  · intro k hk
    fin_cases hk <;> (simp only [score_deal, hsc, hrs]; rfl)

/-! ### The builder claim -/

theorem isPrefixOf_append_self (pat post : List Char) : pat.isPrefixOf (pat ++ post) = true := by
  induction pat with
  | nil => simp [List.isPrefixOf]
  | cons c cs ih => simp [List.isPrefixOf, ih]

theorem containsChars_append_mid (pre pat post : List Char) :
    containsChars (pre ++ (pat ++ post)) pat = true := by
  induction pre with
  | nil =>
    rw [List.nil_append]
    unfold containsChars
    rw [isPrefixOf_append_self]
    rfl
  | cons c rest ih =>
    unfold containsChars
    split <;> simp_all

theorem strContains_append_mid (a b c : String) : strContains (a ++ (b ++ c)) b = true := by
  have h : (a ++ (b ++ c)).toList = a.toList ++ (b.toList ++ c.toList) := rfl
  rw [strContains, h]
  exact containsChars_append_mid _ _ _

theorem build_scoring_prompt_decomp (deal : List (String × Py)) (x : String)
    (hx : price_info deal = x) :
    ∃ a : String, build_scoring_prompt deal = a ++ (("Price: " ++ x) ++ promptPost deal) := by
  refine ⟨promptPre deal, ?_⟩
  rw [build_scoring_prompt, hx]
  simp [String.append_assoc]

/-- C9 (amended): the user prompt renders the price line as
`LME Discount Pricing - Gross: G%, Commission: C%, Net: N%` (ASCII
hyphen, not the em dash the spec prints) when the pricing mode is
`lme_discount`; as `price currency` when a truthy price is present
otherwise (so a price of 0 renders as "Not specified"); and as
`Not specified` when no truthy price is present. -/
theorem build_prompt_price_rendering (deal : List (String × Py)) :
    (dlookup deal "price_type" = some (Py.str "lme_discount") →
      strContains (build_scoring_prompt deal)
        ("Price: " ++ ("LME Discount Pricing - Gross: " ++ pyStr (pyGet deal "gross_discount")
          ++ "%, Commission: " ++ pyStr (pyGet deal "commission")
          ++ "%, Net: " ++ pyStr (pyGet deal "net_discount") ++ "%")) = true)
  ∧ (isLmeDiscount deal = false → pyTruthy (pyGet deal "price") = true →
      strContains (build_scoring_prompt deal)
        ("Price: " ++ (pyStr (pyGet deal "price") ++ " "
          ++ pyStr (pyGetD deal "price_currency" (Py.str "USD")))) = true)
  ∧ (isLmeDiscount deal = false → pyTruthy (pyGet deal "price") = false →
      strContains (build_scoring_prompt deal) ("Price: " ++ "Not specified") = true) := by
  refine ⟨fun hpt => ?_, fun hlme hp => ?_, fun hlme hp => ?_⟩
  · have hl : isLmeDiscount deal = true := by simp [isLmeDiscount, hpt]
    obtain ⟨a, ha⟩ := build_scoring_prompt_decomp deal _ (by rw [price_info, if_pos hl])
    rw [ha]
    exact strContains_append_mid _ _ _
  · obtain ⟨a, ha⟩ := build_scoring_prompt_decomp deal _
      (by rw [price_info, if_neg (by simp [hlme]), if_pos hp])
    rw [ha]
    exact strContains_append_mid _ _ _
  · obtain ⟨a, ha⟩ := build_scoring_prompt_decomp deal _
      (by rw [price_info, if_neg (by simp [hlme]), if_neg (by simp [hp])])
    rw [ha]
    exact strContains_append_mid _ _ _

/-- C9 counterexample: for the LME deal with gross -9, commission 2 and net -11, the prompt contains the
hyphen rendering (and the claimed concrete substring), but not the
em-dash rendering quoted by the claim: indeed the em dash U+2014 occurs
nowhere in the prompt. -/
theorem build_prompt_em_dash_counterexample :
    strContains (build_scoring_prompt
        [("price_type", Py.str "lme_discount"), ("gross_discount", Py.int (-9)),
         ("commission", Py.int 2), ("net_discount", Py.int (-11))])
      "Gross: -9%, Commission: 2%, Net: -11%" = true
  ∧ strContains (build_scoring_prompt
        [("price_type", Py.str "lme_discount"), ("gross_discount", Py.int (-9)),
         ("commission", Py.int 2), ("net_discount", Py.int (-11))])
      "LME Discount Pricing - Gross: -9%, Commission: 2%, Net: -11%" = true
  ∧ strContains (build_scoring_prompt
        [("price_type", Py.str "lme_discount"), ("gross_discount", Py.int (-9)),
         ("commission", Py.int 2), ("net_discount", Py.int (-11))])
      "LME Discount Pricing — Gross: -9%, Commission: 2%, Net: -11%" = false := by
  refine ⟨by decide, by decide, by decide⟩

/-- C9 witness. -/
theorem build_prompt_price_rendering_witness :
    strContains (build_scoring_prompt
        [("price_type", Py.str "lme_discount"), ("gross_discount", Py.int (-9)),
         ("commission", Py.int 2), ("net_discount", Py.int (-11))])
      ("Price: " ++ ("LME Discount Pricing - Gross: "
        ++ pyStr (pyGet [("price_type", Py.str "lme_discount"), ("gross_discount", Py.int (-9)),
             ("commission", Py.int 2), ("net_discount", Py.int (-11))] "gross_discount")
        ++ "%, Commission: "
        ++ pyStr (pyGet [("price_type", Py.str "lme_discount"), ("gross_discount", Py.int (-9)),
             ("commission", Py.int 2), ("net_discount", Py.int (-11))] "commission")
        ++ "%, Net: "
        ++ pyStr (pyGet [("price_type", Py.str "lme_discount"), ("gross_discount", Py.int (-9)),
             ("commission", Py.int 2), ("net_discount", Py.int (-11))] "net_discount")
        ++ "%")) = true :=
  (build_prompt_price_rendering _).1 rfl


/-! ### The extraction claim -/

theorem dropUntil_cons (c x : Char) (xs : List Char) :
    dropUntil c (x :: xs) = if x = c then some (x :: xs) else dropUntil c xs := rfl

theorem dropUntil_some_iff {c : Char} {cs r : List Char} :
    dropUntil c cs = some r ↔ ∃ pre t, cs = pre ++ (c :: t) ∧ c ∉ pre ∧ r = c :: t := by
  induction cs with
  | nil =>
    simp only [dropUntil]
    constructor
    · intro h; cases h
    · rintro ⟨pre, t, hcs, -, -⟩
      exact absurd hcs.symm (by simp)
  | cons x xs ih =>
    by_cases hx : x = c
    · rw [dropUntil_cons, if_pos hx]
      constructor
      · intro h
        have hr := Option.some.inj h
        exact ⟨[], xs, by simp [hx], by simp, by rw [← hr, hx]⟩
      · rintro ⟨pre, t, hcs, hc, hr⟩
        cases pre with
        | nil =>
          simp only [List.nil_append, List.cons.injEq] at hcs
          rw [hr, hcs.2, hcs.1]
        | cons p ps =>
          simp only [List.cons_append, List.cons.injEq] at hcs
          apply absurd _ hc
          rw [← hcs.1, hx]
          exact List.mem_cons_self c ps
    · rw [dropUntil_cons, if_neg hx, ih]
      constructor
      · rintro ⟨pre, t, hxs, hc, hr⟩
        refine ⟨x :: pre, t, by simp [hxs], ?_, hr⟩
        intro hmem
        rcases List.mem_cons.mp hmem with he | hm
        · exact hx he.symm
        · exact hc hm
      · rintro ⟨pre, t, hcs, hc, hr⟩
        cases pre with
        | nil =>
          simp only [List.nil_append, List.cons.injEq] at hcs
          exact absurd hcs.1 hx
        | cons p ps =>
          simp only [List.cons_append, List.cons.injEq] at hcs
          exact ⟨ps, t, hcs.2, fun hm => hc (List.mem_cons.mpr (Or.inr hm)), hr⟩

/-- C4 (amended): the span handed to `json.loads` by the extraction step
is exactly the segment from the first `{` of the cleaned text to the last
`}` (the greedy regex `\{[\s\S]*\}`), with no brace balancing: a span is
selected iff the text decomposes as `pre ++ span ++ post` with no `{`
before the span and no `}` after it, the span running from a `{` to a
`}`. -/
theorem reSearchBrace_first_to_last (cs sp : List Char) :
    reSearchBrace cs = some sp ↔
      ∃ pre mid post, cs = pre ++ ((lbraceChar :: mid ++ [rbraceChar]) ++ post) ∧
        lbraceChar ∉ pre ∧ rbraceChar ∉ post ∧ sp = lbraceChar :: mid ++ [rbraceChar] := by
  unfold reSearchBrace
  constructor
  · intro h
    cases h1 : dropUntil lbraceChar cs with
    | none => rw [h1] at h; simp at h
    | some tail =>
      rw [h1] at h
      replace h : (dropUntil rbraceChar tail.reverse).map List.reverse = some sp := h
      cases h2 : dropUntil rbraceChar tail.reverse with
      | none => rw [h2] at h; simp at h
      | some rtail =>
        rw [h2] at h
        replace h : some rtail.reverse = some sp := h
        have hsp : sp = rtail.reverse := (Option.some.inj h).symm
        obtain ⟨pre, t, hcs, hnb, htail⟩ := dropUntil_some_iff.mp h1
        obtain ⟨pre2, t2, hrev, hnb2, hrtail⟩ := dropUntil_some_iff.mp h2
        have htail2 : tail = t2.reverse ++ (rbraceChar :: pre2.reverse) := by
          have h3 := congrArg List.reverse hrev
          simpa using h3
        rw [htail] at htail2
        cases ht2 : t2.reverse with
        | nil =>
          rw [ht2, List.nil_append] at htail2
          have hbad : lbraceChar = rbraceChar := (List.cons.injEq .. ▸ htail2).1
          exact absurd hbad (by decide)
        | cons x m =>
          rw [ht2] at htail2
          simp only [List.cons_append, List.cons.injEq] at htail2
          obtain ⟨hx, ht⟩ := htail2
          refine ⟨pre, m, pre2.reverse, ?_, hnb, by simpa using hnb2, ?_⟩
          · rw [hcs, ht]
            simp
          · rw [hsp, hrtail]
            simp [ht2, ← hx]
  · rintro ⟨pre, mid, post, hcs, hnb, hnb2, hsp⟩
    have h1 : dropUntil lbraceChar cs = some ((lbraceChar :: mid ++ [rbraceChar]) ++ post) := by
      rw [dropUntil_some_iff]
      exact ⟨pre, mid ++ [rbraceChar] ++ post, by rw [hcs]; simp, hnb, by simp⟩
    rw [h1]
    show (dropUntil rbraceChar ((lbraceChar :: mid ++ [rbraceChar]) ++ post).reverse).map
      List.reverse = some sp
    have h2 : dropUntil rbraceChar ((lbraceChar :: mid ++ [rbraceChar]) ++ post).reverse
        = some (rbraceChar :: (mid.reverse ++ [lbraceChar])) := by
      rw [dropUntil_some_iff]
      exact ⟨post.reverse, mid.reverse ++ [lbraceChar], by simp, by simpa using hnb2, rfl⟩
    rw [h2]
    show some (rbraceChar :: (mid.reverse ++ [lbraceChar])).reverse = some sp
    rw [hsp]
    simp

/-- The extraction as the spec words it: an explicit bracket-depth scan
for the first `{...}` span that balances as a complete object (depth
accumulator; second, spec-side definition for the refinement
comparison). -/
def specScanDepth : Nat → List Char → List Char → Option (List Char)
  | _, _, [] => Option.none
  | depth, acc, c :: rest =>
    if c = lbraceChar then specScanDepth (depth + 1) (c :: acc) rest
    else if c = rbraceChar then
      if depth = 1 then some (c :: acc).reverse
      else specScanDepth (depth - 1) (c :: acc) rest
    else specScanDepth depth (c :: acc) rest

/-- Spec-side extraction: first balanced brace span. -/
def specBraceScan (cs : List Char) : Option (List Char) :=
  match dropUntil lbraceChar cs with
  | some tail => specScanDepth 0 [] tail
  | Option.none => Option.none

/-- C4 counterexample: on `{"score": 5} x {"b": 2}` the code's greedy
first-to-last-brace extraction returns the whole text (which then fails
to parse, landing in the JSON-failure branch), while the bracket-depth
scan the claim describes would return the first balanced span
`{"score": 5}` (which parses cleanly).  The two extractions differ, and
the normalizer's output shows the failure branch was taken. -/
theorem extraction_not_balanced_counterexample :
    reSearchBrace "\x7b\"score\": 5\x7d x \x7b\"b\": 2\x7d".toList
      = some "\x7b\"score\": 5\x7d x \x7b\"b\": 2\x7d".toList
  ∧ specBraceScan "\x7b\"score\": 5\x7d x \x7b\"b\": 2\x7d".toList
      = some "\x7b\"score\": 5\x7d".toList
  ∧ "\x7b\"score\": 5\x7d x \x7b\"b\": 2\x7d".toList ≠ "\x7b\"score\": 5\x7d".toList
  ∧ dlookup (parseScoreStr "\x7b\"score\": 5\x7d x \x7b\"b\": 2\x7d") "executive_summary"
      = some (Py.str ("Warning: JSON Parsing Error. Raw response:\n\n"
          ++ "\x7b\"score\": 5\x7d x \x7b\"b\": 2\x7d"))
  ∧ dlookup (parseScoreStr "\x7b\"score\": 5\x7d x \x7b\"b\": 2\x7d") "score"
      = some (Py.int 5) :=
  ⟨rfl, rfl, by decide, rfl, rfl⟩

/-! ### Round-trip infrastructure: decimal digits -/

theorem digitChar_toNat (d : Nat) (h : d < 10) : (digitChar d).toNat = 48 + d := by
  interval_cases d <;> rfl

theorem digitChar_isDigit (d : Nat) (h : d < 10) : (digitChar d).isDigit = true := by
  interval_cases d <;> rfl

theorem digitChar_ne_zero (d : Nat) (h0 : 0 < d) (h : d < 10) : digitChar d ≠ '0' := by
  interval_cases d <;> decide

theorem digitsToNat_append_one (ds : List Char) (c : Char) :
    digitsToNat (ds ++ [c]) = digitsToNat ds * 10 + (c.toNat - 48) := by
  simp [digitsToNat, List.foldl_append]

/-- Core correctness of `natDigitsF` with sufficient fuel. -/
theorem natDigitsF_spec (f m : Nat) (h : m < f) :
    (natDigitsF f m).all Char.isDigit = true ∧ digitsToNat (natDigitsF f m) = m ∧
      ∃ c cs', natDigitsF f m = c :: cs' ∧ (m ≠ 0 → c ≠ '0') := by
  induction f generalizing m with
  | zero => omega
  | succ f ih =>
    by_cases hm : m < 10
    · rw [natDigitsF, if_pos hm]
      refine ⟨by simp [digitChar_isDigit m hm], ?_, digitChar m, [], rfl, fun h0 => ?_⟩
      · simp [digitsToNat, digitChar_toNat m hm]
      · exact digitChar_ne_zero m (Nat.pos_of_ne_zero h0) hm
    · rw [natDigitsF, if_neg hm]
      have hd : m / 10 < f := by omega
      obtain ⟨hall, hval, c, cs', heq, hc⟩ := ih (m / 10) hd
      refine ⟨?_, ?_, c, cs' ++ [digitChar (m % 10)], by rw [heq]; simp, ?_⟩
      · simp only [List.all_append, hall, Bool.true_and, List.all_cons, List.all_nil,
          Bool.and_true]
        exact digitChar_isDigit (m % 10) (Nat.mod_lt m (by omega))
      · rw [digitsToNat_append_one, hval, digitChar_toNat (m % 10) (Nat.mod_lt m (by omega))]
        omega
      · intro _
        exact hc (by omega)

theorem natChars_spec (m : Nat) :
    (natChars m).all Char.isDigit = true ∧ digitsToNat (natChars m) = m ∧
      ∃ c cs', natChars m = c :: cs' ∧ (m ≠ 0 → c ≠ '0') :=
  natDigitsF_spec (m + 1) m (by omega)

theorem takeWhile_append_stop (p : Char → Bool) (xs ys : List Char)
    (hxs : xs.all p = true) (hys : ∀ c cs', ys = c :: cs' → p c = false) :
    (xs ++ ys).takeWhile p = xs ∧ (xs ++ ys).dropWhile p = ys := by
  induction xs with
  | nil =>
    simp only [List.nil_append]
    cases ys with
    | nil => simp
    | cons c cs' =>
      rw [List.takeWhile_cons, List.dropWhile_cons, hys c cs' rfl]
      simp
  | cons x xs ih =>
    simp only [List.all_cons, Bool.and_eq_true] at hxs
    simp only [List.cons_append, List.takeWhile_cons, List.dropWhile_cons, hxs.1]
    simpa using ih hxs.2

/-- Does the remaining input start with something that cannot extend a
number literal? -/
def numStopB : List Char → Bool
  | [] => true
  | c :: _ => !c.isDigit && c ≠ '.' && c ≠ 'e' && c ≠ 'E'

theorem isDigit_ne (c : Char) (h : c.isDigit = true) :
    c ≠ '-' ∧ c ≠ '.' ∧ c ≠ 'e' ∧ c ≠ 'E' ∧ c ≠ quoteChar ∧ c ≠ lbraceChar ∧ c ≠ '[' := by
  refine ⟨?_, ?_, ?_, ?_, ?_, ?_, ?_⟩ <;> (rintro rfl; exact absurd h (by decide))

theorem numStop_not_digit (rest : List Char) (h : numStopB rest = true) (c : Char)
    (cs' : List Char) (he : rest = c :: cs') : c.isDigit = false := by
  subst he
  simp only [numStopB, Bool.and_eq_true, Bool.not_eq_true'] at h
  exact h.1.1.1

theorem digits_split (m : Nat) (rest : List Char) (h : numStopB rest = true) :
    (natChars m ++ rest).takeWhile Char.isDigit = natChars m ∧
      (natChars m ++ rest).dropWhile Char.isDigit = rest :=
  takeWhile_append_stop Char.isDigit (natChars m) rest (natChars_spec m).1
    (fun c cs' he => numStop_not_digit rest h c cs' he)

theorem numStop_cases (rest : List Char) (h : numStopB rest = true) :
    rest = [] ∨ ∃ c cs', rest = c :: cs' ∧ c.isDigit = false ∧ c ≠ '.' ∧ c ≠ 'e' ∧ c ≠ 'E' := by
  cases rest with
  | nil => exact Or.inl rfl
  | cons c cs' =>
    simp only [numStopB, Bool.and_eq_true, Bool.not_eq_true', decide_eq_true_eq] at h
    exact Or.inr ⟨c, cs', rfl, h.1.1.1, h.1.1.2, h.1.2, h.2⟩

theorem parseNumberBody_natChars (neg : Bool) (m : Nat) (rest : List Char)
    (h : numStopB rest = true) :
    parseNumberBody neg (natChars m ++ rest)
      = .ok (Py.int (if neg then -(m : Int) else (m : Int)), rest) := by
  obtain ⟨hall, hval, c, cs', heq, hc0⟩ := natChars_spec m
  have hcd : c.isDigit = true := by
    rw [heq] at hall
    simp only [List.all_cons, Bool.and_eq_true] at hall
    exact hall.1
  have hip : (if c = '0' then ((0 : Nat), cs' ++ rest)
      else (digitsToNat (List.takeWhile Char.isDigit (c :: (cs' ++ rest))),
        List.dropWhile Char.isDigit (c :: (cs' ++ rest)))) = (m, rest) := by
    by_cases hc : c = '0'
    · have hm0 : m = 0 := by
        by_contra hm0
        exact hc0 hm0 hc
      subst hm0
      have h0 : natChars 0 = ['0'] := rfl
      rw [h0] at heq
      have hcs : cs' = [] := (List.cons.injEq .. ▸ heq).2.symm
      rw [if_pos hc, hcs]
      simp
    · rw [if_neg hc]
      have hsplit := digits_split m rest h
      rw [heq, List.cons_append] at hsplit
      rw [hsplit.1, hsplit.2, ← heq, hval]
  rw [heq]
  unfold parseNumberBody
  simp only [List.cons_append, if_neg (not_not_intro hcd)]
  rw [hip]
  rcases numStop_cases rest h with hnil | ⟨c2, cs2, hrest, hd2, hdot2, he2, hE2⟩
  · subst hnil
    simp
  · subst hrest
    have hee : ¬ (c2 = 'e' ∨ c2 = 'E') := by
      rintro (rfl | rfl) <;> simp_all
    simp only [if_neg hdot2, if_neg hee]
    simp

theorem natDigitsF_fuel (f g m : Nat) (hf : m < f) (hg : m < g) :
    natDigitsF f m = natDigitsF g m := by
  induction f generalizing g m with
  | zero => omega
  | succ f ih =>
    cases g with
    | zero => omega
    | succ g =>
      by_cases hm : m < 10
      · rw [natDigitsF, natDigitsF, if_pos hm, if_pos hm]
      · rw [natDigitsF, natDigitsF, if_neg hm, if_neg hm,
          ih g (m / 10) (by omega) (by omega)]

theorem natChars_length_le (j m : Nat) (hj : 1 ≤ j) (hm : m < 10 ^ j) :
    (natChars m).length ≤ j := by
  induction j generalizing m with
  | zero => omega
  | succ j ih =>
    by_cases hm10 : m < 10
    · have : natChars m = [digitChar m] := by rw [natChars, natDigitsF, if_pos hm10]
      rw [this]
      simp
    · have hj1 : 1 ≤ j := by
        by_contra hj0
        have : j = 0 := by omega
        subst this
        simp at hm
        omega
      have hrw : natChars m = natDigitsF m (m / 10) ++ [digitChar (m % 10)] := by
        rw [natChars, natDigitsF, if_neg hm10]
      have hfuel : natDigitsF m (m / 10) = natChars (m / 10) :=
        natDigitsF_fuel m (m / 10 + 1) (m / 10) (by omega) (by omega)
      rw [hrw, hfuel]
      have hdiv : m / 10 < 10 ^ j := by
        rw [Nat.div_lt_iff_lt_mul (by omega)]
        calc m < 10 ^ (j + 1) := hm
        _ = 10 ^ j * 10 := by ring
      simp only [List.length_append, List.length_cons, List.length_nil]
      have := ih (m / 10) hj1 hdiv
      omega

theorem digitsToNat_replicate_zero (z : Nat) (ds : List Char) :
    digitsToNat (List.replicate z '0' ++ ds) = digitsToNat ds := by
  induction z with
  | zero => simp
  | succ z ih =>
    rw [List.replicate_succ, List.cons_append]
    show digitsToNat (List.replicate z '0' ++ ds) = digitsToNat ds
    exact ih

theorem padDigits_spec (k F : Nat) (hk : 1 ≤ k) (hF : F < 10 ^ k) :
    (padDigits k F).all Char.isDigit = true ∧ (padDigits k F).length = k ∧
      digitsToNat (padDigits k F) = F ∧ padDigits k F ≠ [] := by
  obtain ⟨hall, hval, c, cs', heq, -⟩ := natChars_spec F
  have hlen : (natChars F).length ≤ k := natChars_length_le k F hk hF
  have hrepl : (List.replicate (k - (natChars F).length) '0').all Char.isDigit = true := by
    simp [List.all_eq_true]
  have hpd : padDigits k F = List.replicate (k - (natChars F).length) '0' ++ natChars F := rfl
  refine ⟨?_, ?_, ?_, ?_⟩
  · rw [hpd, List.all_append, hrepl]
    exact hall
  · rw [hpd]
    simp only [List.length_append, List.length_replicate]
    omega
  · rw [hpd, digitsToNat_replicate_zero]
    exact hval
  · rw [hpd]
    simp [heq]

theorem isEmpty_false_of_ne_nil {l : List Char} (h : l ≠ []) : l.isEmpty = false := by
  cases l with
  | nil => exact absurd rfl h
  | cons c cs => rfl

theorem parseNumberBody_decimal (neg : Bool) (I F k : Nat) (hk : 1 ≤ k) (hF : F < 10 ^ k)
    (rest : List Char) (h : numStopB rest = true) :
    parseNumberBody neg (natChars I ++ '.' :: (padDigits k F ++ rest))
      = .ok (Py.float (if neg then -((I : Rat) + (F : Rat) / (10 : Rat) ^ k)
          else ((I : Rat) + (F : Rat) / (10 : Rat) ^ k)), rest) := by
  obtain ⟨hall, hval, c, cs', heq, hc0⟩ := natChars_spec I
  obtain ⟨hpall, hplen, hpval, hpne⟩ := padDigits_spec k F hk hF
  have hcd : c.isDigit = true := by
    rw [heq] at hall
    simp only [List.all_cons, Bool.and_eq_true] at hall
    exact hall.1
  have hip : (if c = '0' then ((0 : Nat), cs' ++ ('.' :: (padDigits k F ++ rest)))
      else (digitsToNat (List.takeWhile Char.isDigit
              (c :: (cs' ++ ('.' :: (padDigits k F ++ rest))))),
        List.dropWhile Char.isDigit (c :: (cs' ++ ('.' :: (padDigits k F ++ rest)))))) =
      (I, '.' :: (padDigits k F ++ rest)) := by
    by_cases hc : c = '0'
    · have hm0 : I = 0 := by
        by_contra hm0
        exact hc0 hm0 hc
      subst hm0
      have h0 : natChars 0 = ['0'] := rfl
      rw [h0] at heq
      have hcs : cs' = [] := (List.cons.injEq .. ▸ heq).2.symm
      rw [if_pos hc, hcs]
      simp
    · rw [if_neg hc]
      have hsplit := takeWhile_append_stop Char.isDigit (natChars I)
        ('.' :: (padDigits k F ++ rest)) hall
        (fun c2 cs2 he2 => by
          have hc2 : c2 = '.' := (List.cons.injEq .. ▸ he2).1.symm
          rw [hc2]
          rfl)
      rw [heq, List.cons_append] at hsplit
      rw [hsplit.1, hsplit.2, ← heq, hval]
  have hfs := takeWhile_append_stop Char.isDigit (padDigits k F) rest hpall
    (fun c2 cs2 he2 => numStop_not_digit rest h c2 cs2 he2)
  obtain ⟨p, ps, hpd⟩ : ∃ p ps, padDigits k F = p :: ps := by
    cases hpd : padDigits k F with
    | nil => exact absurd hpd hpne
    | cons p ps => exact ⟨p, ps, rfl⟩
  rw [heq]
  unfold parseNumberBody
  simp only [List.cons_append, if_neg (not_not_intro hcd)]
  rw [hip]
  rw [hpd] at hfs hpval hplen ⊢
  simp only [List.cons_append] at hfs ⊢
  simp only [if_true, hfs.1, hfs.2, List.isEmpty_cons, Bool.false_eq_true, if_false]
  rcases numStop_cases rest h with hnil | ⟨c2, cs2, hrest, hd2, hdot2, he2, hE2⟩
  · subst hnil
    simp only [hpval, hplen]
    simp
  · subst hrest
    have hee : ¬ (c2 = 'e' ∨ c2 = 'E') := by
      rintro (rfl | rfl) <;> simp_all
    simp only [if_neg hee, hpval, hplen]
    simp

theorem parseNumber_intChars (n : Int) (rest : List Char) (h : numStopB rest = true) :
    parseNumber (intChars n ++ rest) = .ok (Py.int n, rest) := by
  by_cases hn : n < 0
  · rw [intChars, if_pos hn, List.cons_append]
    show parseNumber ('-' :: (natChars n.natAbs ++ rest)) = .ok (Py.int n, rest)
    rw [parseNumber]
    rw [if_pos rfl, parseNumberBody_natChars true n.natAbs rest h]
    congr 2
    rw [if_pos rfl]
    congr 1
    omega
  · rw [intChars, if_neg hn]
    obtain ⟨hall, -, c, cs', heq, -⟩ := natChars_spec n.natAbs
    have hcd : c.isDigit = true := by
      rw [heq] at hall
      simp only [List.all_cons, Bool.and_eq_true] at hall
      exact hall.1
    obtain ⟨hm, -, -, -, -, -, -⟩ := isDigit_ne c hcd
    rw [heq, List.cons_append, parseNumber, if_neg hm, ← List.cons_append, ← heq,
      parseNumberBody_natChars false n.natAbs rest h]
    congr 2
    rw [if_neg (by simp)]
    congr 1
    omega

/-- Structure of a successful float encoding. -/
theorem encodeFloat_spec (q : Rat) (out : List Char) (he : encodeFloat? q = some out) :
    ∃ k I F, 1 ≤ k ∧ F < 10 ^ k ∧
      out = (if q.num < 0 then ['-'] else []) ++ (natChars I ++ '.' :: padDigits k F) ∧
      (if q.num < 0 then -((I : Rat) + (F : Rat) / (10 : Rat) ^ k)
        else ((I : Rat) + (F : Rat) / (10 : Rat) ^ k)) = q := by
  unfold encodeFloat? at he
  by_cases hdvd : q.den ∣ 10 ^ decK q.den
  case neg => rw [if_neg hdvd] at he; cases he
  rw [if_pos hdvd] at he
  refine ⟨decK q.den, decM q / 10 ^ decK q.den, decM q % 10 ^ decK q.den,
    le_max_left 1 _, Nat.mod_lt _ (by positivity), (Option.some.inj he).symm, ?_⟩
  have hden0 : ((q.den : Nat) : Rat) ≠ 0 := by
    have := q.den_pos
    positivity
  have hten : ((10 : Rat) ^ decK q.den) ≠ 0 := by positivity
  have hcast : ((10 ^ decK q.den / q.den : Nat) : Rat)
      = (10 : Rat) ^ decK q.den / ((q.den : Nat) : Rat) := by
    rw [Nat.cast_div hdvd hden0]
    push_cast
    rfl
  have hmq : ((decM q : Nat) : Rat)
      = (q.num.natAbs : Rat) * ((10 : Rat) ^ decK q.den / ((q.den : Nat) : Rat)) := by
    rw [decM]
    push_cast [hcast]
    ring
  have hbase : ((decM q / 10 ^ decK q.den : Nat) : Rat)
        + ((decM q % 10 ^ decK q.den : Nat) : Rat) / (10 : Rat) ^ decK q.den
      = (q.num.natAbs : Rat) / ((q.den : Nat) : Rat) := by
    have hdm := Nat.div_add_mod (decM q) (10 ^ decK q.den)
    have hsum : ((10 ^ decK q.den * (decM q / 10 ^ decK q.den)
        + decM q % 10 ^ decK q.den : Nat) : Rat) = ((decM q : Nat) : Rat) := by
      rw [hdm]
    push_cast at hsum
    rw [hmq] at hsum
    field_simp at hsum ⊢
    linarith [hsum]
  rcases lt_or_ge q.num 0 with hq | hq
  · rw [if_pos hq, hbase]
    have habs : ((q.num.natAbs : Nat) : Rat) = -((q.num : Int) : Rat) := by
      have h1 : ((q.num.natAbs : Nat) : Int) = -q.num := Int.ofNat_natAbs_of_nonpos (le_of_lt hq)
      calc ((q.num.natAbs : Nat) : Rat) = (((q.num.natAbs : Nat) : Int) : Rat) := (Int.cast_natCast _).symm
      _ = ((-q.num : Int) : Rat) := by rw [h1]
      _ = -((q.num : Int) : Rat) := by push_cast; ring
    rw [habs, neg_div, neg_neg]
    exact_mod_cast Rat.num_div_den q
  · rw [if_neg (not_lt.mpr hq), hbase]
    have habs : ((q.num.natAbs : Nat) : Rat) = ((q.num : Int) : Rat) := by
      have h1 : ((q.num.natAbs : Nat) : Int) = q.num := Int.natAbs_of_nonneg hq
      calc ((q.num.natAbs : Nat) : Rat) = (((q.num.natAbs : Nat) : Int) : Rat) := (Int.cast_natCast _).symm
      _ = ((q.num : Int) : Rat) := by rw [h1]
    rw [habs]
    exact_mod_cast Rat.num_div_den q

theorem parseNumber_floatEnc (q : Rat) (out : List Char) (he : encodeFloat? q = some out)
    (rest : List Char) (h : numStopB rest = true) :
    parseNumber (out ++ rest) = .ok (Py.float q, rest) := by
  obtain ⟨k, I, F, hk, hF, hout, hval⟩ := encodeFloat_spec q out he
  rcases lt_or_ge q.num 0 with hq | hq
  · rw [if_pos hq] at hout hval
    rw [hout]
    show parseNumber (('-' :: (natChars I ++ '.' :: padDigits k F)) ++ rest)
      = .ok (Py.float q, rest)
    rw [List.cons_append, parseNumber, if_pos rfl]
    have harr : (natChars I ++ '.' :: padDigits k F) ++ rest
        = natChars I ++ '.' :: (padDigits k F ++ rest) := by
      simp [List.append_assoc]
    rw [harr, parseNumberBody_decimal true I F k hk hF rest h, if_pos rfl, hval]
  · rw [if_neg (not_lt.mpr hq)] at hout hval
    rw [hout]
    show parseNumber ((natChars I ++ '.' :: padDigits k F) ++ rest) = .ok (Py.float q, rest)
    obtain ⟨hall, -, c, cs', heq, -⟩ := natChars_spec I
    have hcd : c.isDigit = true := by
      rw [heq] at hall
      simp only [List.all_cons, Bool.and_eq_true] at hall
      exact hall.1
    obtain ⟨hm, -, -, -, -, -, -⟩ := isDigit_ne c hcd
    have harr : (natChars I ++ '.' :: padDigits k F) ++ rest
        = natChars I ++ '.' :: (padDigits k F ++ rest) := by
      simp [List.append_assoc]
    rw [harr, heq, List.cons_append, parseNumber, if_neg hm, ← List.cons_append, ← heq,
      parseNumberBody_decimal false I F k hk hF rest h, if_neg (by simp), hval]

theorem hexVal_hexDigitChar (x : Nat) (hx : x < 16) : hexVal (hexDigitChar x) = some x := by
  interval_cases x <;> decide

theorem parseStringBody_u (f : Nat) (acc : List Char) (a b c2 d : Char) (tl : List Char)
    (v : Nat) (hh : hex4 a b c2 d = some v) (hlo : v < 0xD800) :
    parseStringBody (f + 1) acc (backslashChar :: 'u' :: a :: b :: c2 :: d :: tl)
      = parseStringBody f (Char.ofNat v :: acc) tl := by
  have hstep : parseStringBody (f + 1) acc (backslashChar :: 'u' :: a :: b :: c2 :: d :: tl)
      = match hex4 a b c2 d with
        | Option.none => throw (PyErr.jsonDecodeError "Invalid hexadecimal escape")
        | some v =>
          if 0xD800 ≤ v ∧ v ≤ 0xDBFF then
            match lowSurrogateEsc? tl with
            | some wr =>
              parseStringBody f
                (Char.ofNat (0x10000 + (v - 0xD800) * 0x400 + (wr.1 - 0xDC00)) :: acc) wr.2
            | Option.none => parseStringBody f (Char.ofNat 0xFFFD :: acc) tl
          else if 0xDC00 ≤ v ∧ v ≤ 0xDFFF then
            parseStringBody f (Char.ofNat 0xFFFD :: acc) tl
          else parseStringBody f (Char.ofNat v :: acc) tl := rfl
  rw [hstep, hh]
  change (if 0xD800 ≤ v ∧ v ≤ 0xDBFF then _
    else if 0xDC00 ≤ v ∧ v ≤ 0xDFFF then _
    else parseStringBody f (Char.ofNat v :: acc) tl) = _
  rw [if_neg (by omega), if_neg (by omega)]

theorem parseStringBody_enc (cs : List Char) : ∀ (fuel : Nat) (acc rest : List Char),
    (encodeStringBody cs).length < fuel →
    parseStringBody fuel acc (encodeStringBody cs ++ quoteChar :: rest)
      = .ok (String.mk (acc.reverse ++ cs), rest) := by
  induction cs with
  | nil =>
    intro fuel acc rest hf
    obtain ⟨f, rfl⟩ : ∃ f, fuel = f + 1 := ⟨fuel - 1, by omega⟩
    show parseStringBody (f + 1) acc (quoteChar :: rest) = .ok (String.mk (acc.reverse ++ []), rest)
    rw [List.append_nil]
    rfl
  | cons c cs ih =>
    intro fuel acc rest hf
    by_cases hq : c = quoteChar
    · subst hq
      have henc : encodeStringBody (quoteChar :: cs)
          = backslashChar :: quoteChar :: encodeStringBody cs := rfl
      rw [henc] at hf ⊢
      obtain ⟨f, rfl⟩ : ∃ f, fuel = f + 1 := ⟨fuel - 1, by omega⟩
      have hstep : parseStringBody (f + 1) acc
          ((backslashChar :: quoteChar :: encodeStringBody cs) ++ quoteChar :: rest)
          = parseStringBody f (quoteChar :: acc) (encodeStringBody cs ++ quoteChar :: rest) := rfl
      rw [hstep, ih f (quoteChar :: acc) rest (by simp at hf; omega)]
      simp [List.append_assoc]
    · by_cases hb : c = backslashChar
      · subst hb
        have henc : encodeStringBody (backslashChar :: cs)
            = backslashChar :: backslashChar :: encodeStringBody cs := rfl
        rw [henc] at hf ⊢
        obtain ⟨f, rfl⟩ : ∃ f, fuel = f + 1 := ⟨fuel - 1, by omega⟩
        have hstep : parseStringBody (f + 1) acc
            ((backslashChar :: backslashChar :: encodeStringBody cs) ++ quoteChar :: rest)
            = parseStringBody f (backslashChar :: acc) (encodeStringBody cs ++ quoteChar :: rest) :=
          rfl
        rw [hstep, ih f (backslashChar :: acc) rest (by simp at hf; omega)]
        simp [List.append_assoc]
      · by_cases hctl : c.toNat < 32
        · have henc : encodeStringBody (c :: cs)
              = backslashChar :: 'u' :: '0' :: '0' :: hexDigitChar (c.toNat / 16)
                  :: hexDigitChar (c.toNat % 16) :: encodeStringBody cs := by
            show encodeStringChar c ++ encodeStringBody cs = _
            rw [encodeStringChar, if_neg hq, if_neg hb, if_pos hctl]
            rfl
          rw [henc] at hf ⊢
          obtain ⟨f, rfl⟩ : ∃ f, fuel = f + 1 := ⟨fuel - 1, by omega⟩
          have hh : hex4 '0' '0' (hexDigitChar (c.toNat / 16)) (hexDigitChar (c.toNat % 16))
              = some c.toNat := by
            rw [hex4, show hexVal '0' = some 0 from rfl,
              hexVal_hexDigitChar (c.toNat / 16) (by omega),
              hexVal_hexDigitChar (c.toNat % 16) (Nat.mod_lt _ (by norm_num))]
            simp only []
            congr 1
            omega
          simp only [List.cons_append]
          rw [parseStringBody_u f acc _ _ _ _ _ c.toNat hh (by omega), Char.ofNat_toNat,
            ih f (c :: acc) rest (by simp at hf; omega)]
          simp [List.append_assoc]
        · have henc : encodeStringBody (c :: cs) = c :: encodeStringBody cs := by
            show encodeStringChar c ++ encodeStringBody cs = _
            rw [encodeStringChar, if_neg hq, if_neg hb, if_neg hctl]
            rfl
          rw [henc] at hf ⊢
          obtain ⟨f, rfl⟩ : ∃ f, fuel = f + 1 := ⟨fuel - 1, by omega⟩
          rw [List.cons_append]
          change (if c = quoteChar
              then (.ok (String.mk acc.reverse, encodeStringBody cs ++ quoteChar :: rest)
                : Except PyErr (String × List Char))
              else if c = backslashChar then _
              else if c.toNat < 32 then _
              else parseStringBody f (c :: acc) (encodeStringBody cs ++ quoteChar :: rest)) = _
          rw [if_neg hq, if_neg hb, if_neg hctl,
            ih f (c :: acc) rest (by simp at hf; omega)]
          simp [List.append_assoc]

theorem jsonWsB_cases (c : Char) (h : jsonWsB c = true) :
    c = ' ' ∨ c = '\t' ∨ c = '\n' ∨ c = '\r' := by
  have h2 := h
  simp only [jsonWsB, Bool.or_eq_true, decide_eq_true_eq] at h2
  tauto

theorem isDigit_ws (c : Char) (h : c.isDigit = true) : jsonWsB c = false := by
  cases hw : jsonWsB c
  · rfl
  · rcases jsonWsB_cases c hw with rfl | rfl | rfl | rfl <;> exact absurd h (by decide)

theorem isDigit_lit (c : Char) (h : c.isDigit = true) :
    c ≠ 't' ∧ c ≠ 'f' ∧ c ≠ 'n' ∧ c ≠ 'N' ∧ c ≠ 'I' ∧ c ≠ ']' ∧ c ≠ rbraceChar := by
  refine ⟨?_, ?_, ?_, ?_, ?_, ?_, ?_⟩ <;> (rintro rfl; exact absurd h (by decide))

theorem isPrefixOf_false_of_head (a c : Char) (l tl : List Char) (h : c ≠ a) :
    (a :: l).isPrefixOf (c :: tl) = false := by
  show (a == c && l.isPrefixOf tl) = false
  rw [show (a == c) = false from beq_eq_false_iff_ne.mpr (Ne.symm h)]
  rfl

theorem numStop_rbrace (xs : List Char) : numStopB (rbraceChar :: xs) = true := rfl

theorem numStop_rsq (xs : List Char) : numStopB (']' :: xs) = true := rfl

theorem numStop_comma (xs : List Char) : numStopB (',' :: xs) = true := rfl

theorem parseValue_ws (f : Nat) (cs : List Char) :
    parseValue f (' ' :: cs) = parseValue f cs := by
  cases f with
  | zero => rfl
  | succ f => rfl

theorem encodeString_length (s : String) :
    (encodeString s).length = (encodeStringBody s.toList).length + 2 := by
  simp [encodeString]

theorem parseElems_ws (f : Nat) (cs : List Char) (acc : List Py) :
    parseElems f (' ' :: cs) acc = parseElems f cs acc := by
  cases f with
  | zero => rfl
  | succ f => rw [parseElems, parseElems, parseValue_ws]

theorem parseValue_step (f : Nat) (c : Char) (tl : List Char)
    (hws : jsonWsB c = false)
    (h1 : c ≠ lbraceChar) (h2 : c ≠ '[') (h3 : c ≠ quoteChar)
    (p1 : (['t', 'r', 'u', 'e'] : List Char).isPrefixOf (c :: tl) = false)
    (p2 : (['f', 'a', 'l', 's', 'e'] : List Char).isPrefixOf (c :: tl) = false)
    (p3 : (['n', 'u', 'l', 'l'] : List Char).isPrefixOf (c :: tl) = false)
    (p4 : (['N', 'a', 'N'] : List Char).isPrefixOf (c :: tl) = false)
    (p5 : (['I', 'n', 'f', 'i', 'n', 'i', 't', 'y'] : List Char).isPrefixOf (c :: tl) = false)
    (p6 : (['-', 'I', 'n', 'f', 'i', 'n', 'i', 't', 'y'] : List Char).isPrefixOf (c :: tl)
      = false)
    (h9 : c = '-' ∨ c.isDigit = true) :
    parseValue (f + 1) (c :: tl) = parseNumber (c :: tl) := by
  rw [parseValue]
  simp only [skipJsonWs, hws, Bool.false_eq_true, if_false, p1, p2, p3, p4, p5, p6,
    if_neg h1, if_neg h2, if_neg h3]
  rw [if_pos h9]

theorem natChars_head_digit (m : Nat) :
    ∃ c tl, natChars m = c :: tl ∧ c.isDigit = true := by
  obtain ⟨hall, -, c, tl, heq, -⟩ := natChars_spec m
  refine ⟨c, tl, heq, ?_⟩
  rw [heq] at hall
  simp only [List.all_cons, Bool.and_eq_true] at hall
  exact hall.1

theorem pyEncV_head (v : Py) (out : List Char) (h : pyEncV v = some out) :
    ∃ c tl, out = c :: tl ∧ jsonWsB c = false ∧ c ≠ ']' := by
  cases v with
  | none =>
    have h2 : (['n', 'u', 'l', 'l'] : List Char) = out := by simpa [pyEncV] using h
    exact ⟨'n', _, h2.symm, by decide, by decide⟩
  | bool b =>
    cases b
    · have h2 : (['f', 'a', 'l', 's', 'e'] : List Char) = out := by simpa [pyEncV] using h
      exact ⟨'f', _, h2.symm, by decide, by decide⟩
    · have h2 : (['t', 'r', 'u', 'e'] : List Char) = out := by simpa [pyEncV] using h
      exact ⟨'t', _, h2.symm, by decide, by decide⟩
  | int n =>
    have h2 : intChars n = out := by simpa [pyEncV] using h
    by_cases hn : n < 0
    · rw [intChars, if_pos hn] at h2
      exact ⟨'-', _, h2.symm, by decide, by decide⟩
    · rw [intChars, if_neg hn] at h2
      obtain ⟨c, tl, heq, hcd⟩ := natChars_head_digit n.natAbs
      rw [heq] at h2
      exact ⟨c, tl, h2.symm, isDigit_ws c hcd, (isDigit_lit c hcd).2.2.2.2.2.1⟩
  | float q =>
    obtain ⟨k, I, F, -, -, hout, -⟩ := encodeFloat_spec q out h
    by_cases hq : q.num < 0
    · rw [if_pos hq] at hout
      exact ⟨'-', _, hout, by decide, by decide⟩
    · rw [if_neg hq, List.nil_append] at hout
      obtain ⟨c, tl, heq, hcd⟩ := natChars_head_digit I
      rw [heq] at hout
      exact ⟨c, _, hout, isDigit_ws c hcd, (isDigit_lit c hcd).2.2.2.2.2.1⟩
  | nan =>
    have h2 : (['N', 'a', 'N'] : List Char) = out := by simpa [pyEncV] using h
    exact ⟨'N', _, h2.symm, by decide, by decide⟩
  | inf b =>
    cases b
    · have h2 : (['I', 'n', 'f', 'i', 'n', 'i', 't', 'y'] : List Char) = out := by
        simpa [pyEncV] using h
      exact ⟨'I', _, h2.symm, by decide, by decide⟩
    · have h2 : (['-', 'I', 'n', 'f', 'i', 'n', 'i', 't', 'y'] : List Char) = out := by
        simpa [pyEncV] using h
      exact ⟨'-', _, h2.symm, by decide, by decide⟩
  | str s =>
    have h2 : encodeString s = out := by simpa [pyEncV] using h
    refine ⟨quoteChar, encodeStringBody s.toList ++ [quoteChar], h2.symm, by decide, by decide⟩
  | list xs =>
    cases xs with
    | nil =>
      have h2 : (['[', ']'] : List Char) = out := by simpa [pyEncV] using h
      exact ⟨'[', _, h2.symm, by decide, by decide⟩
    | cons x xs =>
      rw [pyEncV] at h
      cases hx : pyEncV x with
      | none => rw [hx] at h; exact absurd h (by simp)
      | some hd =>
        cases hxs : pyEncL xs with
        | none => rw [hx, hxs] at h; exact absurd h (by simp)
        | some t =>
          rw [hx, hxs] at h
          simp only [Option.some.injEq] at h
          exact ⟨'[', _, h.symm, by decide, by decide⟩
  | dict d =>
    cases d with
    | nil =>
      have h2 : ([lbraceChar, rbraceChar] : List Char) = out := by simpa [pyEncV] using h
      exact ⟨lbraceChar, _, h2.symm, by decide, by decide⟩
    | cons kv rest =>
      obtain ⟨k, v⟩ := kv
      rw [pyEncV] at h
      cases hv : pyEncV v with
      | none => rw [hv] at h; exact absurd h (by simp)
      | some ev =>
        cases hr : pyEncM rest with
        | none => rw [hv, hr] at h; exact absurd h (by simp)
        | some t =>
          rw [hv, hr] at h
          replace h : (if (rest.all fun kv => kv.1 ≠ k) = true ∧ nodupKeysB rest = true then
              some (lbraceChar :: (encodeString k ++ ':' :: ' ' :: ev ++ t) ++ [rbraceChar])
            else Option.none) = some out := h
          by_cases hg : (rest.all fun kv => kv.1 ≠ k) = true ∧ nodupKeysB rest = true
          · rw [if_pos hg] at h
            simp only [Option.some.injEq] at h
            exact ⟨lbraceChar, _, h.symm, by decide, by decide⟩
          · rw [if_neg hg] at h
            exact absurd h (by simp)

theorem nodupKeysB_prefix_all (k : String) (v : Py) (l : List (String × Py)) :
    ∀ acc, nodupKeysB (acc ++ (k, v) :: l) = true →
      acc.all (fun p => p.1 ≠ k) = true := by
  intro acc
  induction acc with
  | nil => intro _; rfl
  | cons p acc ih =>
    intro h
    obtain ⟨k0, w⟩ := p
    simp only [List.cons_append, nodupKeysB, Bool.and_eq_true] at h
    have hmem : ((k, v) : String × Py) ∈ acc ++ (k, v) :: l := by simp
    have hne : k ≠ k0 := by
      have := (List.all_eq_true.mp h.1) (k, v) hmem
      simpa using this
    simp only [List.all_cons, Bool.and_eq_true, decide_eq_true_eq]
    exact ⟨Ne.symm hne, ih h.2⟩

theorem dictSet_append (acc : List (String × Py)) (k : String) (v : Py)
    (h : acc.all (fun p => p.1 ≠ k) = true) : dictSet acc k v = acc ++ [(k, v)] := by
  induction acc with
  | nil => rfl
  | cons p acc ih =>
    obtain ⟨k0, w⟩ := p
    simp only [List.all_cons, Bool.and_eq_true, decide_eq_true_eq] at h
    show (if k0 = k then (k0, v) :: acc else (k0, w) :: dictSet acc k v) = _
    rw [if_neg h.1, ih (by simpa using h.2)]
    rfl

theorem except_bind_ok {α β : Type} (a : α) (K : α → Except PyErr β) :
    (do
      let x ← (.ok a : Except PyErr α)
      K x) = K a := rfl

theorem pyEncL_shape (xs : List Py) (t : List Char) (ht : pyEncL xs = some t) :
    (xs = [] ∧ t = []) ∨
      ∃ y ys h' t', xs = y :: ys ∧ pyEncV y = some h' ∧ pyEncL ys = some t' ∧
        t = ',' :: ' ' :: (h' ++ t') := by
  cases xs with
  | nil =>
    left
    refine ⟨rfl, ?_⟩
    simpa [pyEncL] using ht.symm
  | cons y ys =>
    right
    rw [pyEncL] at ht
    cases hy : pyEncV y with
    | none => rw [hy] at ht; exact absurd ht (by simp)
    | some h' =>
      cases hys : pyEncL ys with
      | none => rw [hy, hys] at ht; exact absurd ht (by simp)
      | some t' =>
        rw [hy, hys] at ht
        simp only [Option.some.injEq] at ht
        exact ⟨y, ys, h', t', rfl, hy, hys, ht.symm⟩

theorem pyEncM_shape (l : List (String × Py)) (t : List Char) (ht : pyEncM l = some t) :
    (l = [] ∧ t = []) ∨
      ∃ k' v' l' ev' t', l = (k', v') :: l' ∧ pyEncV v' = some ev' ∧ pyEncM l' = some t' ∧
        t = ',' :: ' ' :: (encodeString k' ++ ':' :: ' ' :: (ev' ++ t')) := by
  cases l with
  | nil =>
    left
    refine ⟨rfl, ?_⟩
    simpa [pyEncM] using ht.symm
  | cons kv l' =>
    right
    obtain ⟨k', v'⟩ := kv
    rw [pyEncM] at ht
    cases hv : pyEncV v' with
    | none => rw [hv] at ht; exact absurd ht (by simp)
    | some ev' =>
      cases hl : pyEncM l' with
      | none => rw [hv, hl] at ht; exact absurd ht (by simp)
      | some t' =>
        rw [hv, hl] at ht
        simp only [Option.some.injEq] at ht
        refine ⟨k', v', l', ev', t', rfl, hv, hl, ?_⟩
        rw [← ht]
        simp

theorem pyEncM_numStop (l : List (String × Py)) (t : List Char) (ht : pyEncM l = some t)
    (rest : List Char) : numStopB (t ++ rbraceChar :: rest) = true := by
  rcases pyEncM_shape l t ht with ⟨-, rfl⟩ | ⟨k', v', l', ev', t', -, -, -, rfl⟩
  · exact numStop_rbrace rest
  · rfl

theorem pyEncL_numStop (xs : List Py) (t : List Char) (ht : pyEncL xs = some t)
    (rest : List Char) : numStopB (t ++ ']' :: rest) = true := by
  rcases pyEncL_shape xs t ht with ⟨-, rfl⟩ | ⟨y, ys, h', t', -, -, -, rfl⟩
  · exact numStop_rsq rest
  · rfl

theorem skipJsonWs_encodeString (s : String) (X : List Char) :
    skipJsonWs (encodeString s ++ X) = encodeString s ++ X := rfl

theorem parseValue_null (f : Nat) (rest : List Char) :
    parseValue (f + 1) ('n' :: 'u' :: 'l' :: 'l' :: rest) = .ok (Py.none, rest) := by
  have hpre : (['n', 'u', 'l', 'l'] : List Char).isPrefixOf ('n' :: 'u' :: 'l' :: 'l' :: rest)
      = true := by simp [List.isPrefixOf]
  change (if (['n', 'u', 'l', 'l'] : List Char).isPrefixOf ('n' :: 'u' :: 'l' :: 'l' :: rest)
        = true
      then (Except.ok (Py.none, ('n' :: 'u' :: 'l' :: 'l' :: rest : List Char).drop 4)
        : Except PyErr (Py × List Char))
      else _) = Except.ok (Py.none, rest)
  rw [hpre]
  rfl

theorem parseValue_true (f : Nat) (rest : List Char) :
    parseValue (f + 1) ('t' :: 'r' :: 'u' :: 'e' :: rest) = .ok (Py.bool true, rest) := by
  have hpre : (['t', 'r', 'u', 'e'] : List Char).isPrefixOf ('t' :: 'r' :: 'u' :: 'e' :: rest)
      = true := by simp [List.isPrefixOf]
  change (if (['t', 'r', 'u', 'e'] : List Char).isPrefixOf ('t' :: 'r' :: 'u' :: 'e' :: rest)
        = true
      then (Except.ok (Py.bool true, ('t' :: 'r' :: 'u' :: 'e' :: rest : List Char).drop 4)
        : Except PyErr (Py × List Char))
      else _) = Except.ok (Py.bool true, rest)
  rw [hpre]
  rfl

theorem parseValue_false (f : Nat) (rest : List Char) :
    parseValue (f + 1) ('f' :: 'a' :: 'l' :: 's' :: 'e' :: rest) = .ok (Py.bool false, rest) := by
  have hpre : (['f', 'a', 'l', 's', 'e'] : List Char).isPrefixOf
      ('f' :: 'a' :: 'l' :: 's' :: 'e' :: rest) = true := by simp [List.isPrefixOf]
  change (if (['f', 'a', 'l', 's', 'e'] : List Char).isPrefixOf
        ('f' :: 'a' :: 'l' :: 's' :: 'e' :: rest) = true
      then (Except.ok (Py.bool false,
          ('f' :: 'a' :: 'l' :: 's' :: 'e' :: rest : List Char).drop 5)
        : Except PyErr (Py × List Char))
      else _) = Except.ok (Py.bool false, rest)
  rw [hpre]
  rfl

theorem parseValue_nanLit (f : Nat) (rest : List Char) :
    parseValue (f + 1) ('N' :: 'a' :: 'N' :: rest) = .ok (Py.nan, rest) := by
  have hpre : (['N', 'a', 'N'] : List Char).isPrefixOf ('N' :: 'a' :: 'N' :: rest) = true := by
    simp [List.isPrefixOf]
  change (if (['N', 'a', 'N'] : List Char).isPrefixOf ('N' :: 'a' :: 'N' :: rest) = true
      then (Except.ok (Py.nan, ('N' :: 'a' :: 'N' :: rest : List Char).drop 3)
        : Except PyErr (Py × List Char))
      else _) = Except.ok (Py.nan, rest)
  rw [hpre]
  rfl

theorem parseValue_posInf (f : Nat) (rest : List Char) :
    parseValue (f + 1) ('I' :: 'n' :: 'f' :: 'i' :: 'n' :: 'i' :: 't' :: 'y' :: rest)
      = .ok (Py.inf false, rest) := by
  have hpre : (['I', 'n', 'f', 'i', 'n', 'i', 't', 'y'] : List Char).isPrefixOf
      ('I' :: 'n' :: 'f' :: 'i' :: 'n' :: 'i' :: 't' :: 'y' :: rest) = true := by
    simp [List.isPrefixOf]
  change (if (['I', 'n', 'f', 'i', 'n', 'i', 't', 'y'] : List Char).isPrefixOf
        ('I' :: 'n' :: 'f' :: 'i' :: 'n' :: 'i' :: 't' :: 'y' :: rest) = true
      then (Except.ok (Py.inf false,
          ('I' :: 'n' :: 'f' :: 'i' :: 'n' :: 'i' :: 't' :: 'y' :: rest : List Char).drop 8)
        : Except PyErr (Py × List Char))
      else _) = Except.ok (Py.inf false, rest)
  rw [hpre]
  rfl

theorem parseValue_negInf (f : Nat) (rest : List Char) :
    parseValue (f + 1) ('-' :: 'I' :: 'n' :: 'f' :: 'i' :: 'n' :: 'i' :: 't' :: 'y' :: rest)
      = .ok (Py.inf true, rest) := by
  have hpre : (['-', 'I', 'n', 'f', 'i', 'n', 'i', 't', 'y'] : List Char).isPrefixOf
      ('-' :: 'I' :: 'n' :: 'f' :: 'i' :: 'n' :: 'i' :: 't' :: 'y' :: rest) = true := by
    simp [List.isPrefixOf]
  change (if (['-', 'I', 'n', 'f', 'i', 'n', 'i', 't', 'y'] : List Char).isPrefixOf
        ('-' :: 'I' :: 'n' :: 'f' :: 'i' :: 'n' :: 'i' :: 't' :: 'y' :: rest) = true
      then (Except.ok (Py.inf true,
          ('-' :: 'I' :: 'n' :: 'f' :: 'i' :: 'n' :: 'i' :: 't' :: 'y' :: rest
            : List Char).drop 9)
        : Except PyErr (Py × List Char))
      else _) = Except.ok (Py.inf true, rest)
  rw [hpre]
  rfl

theorem isPrefixOf_false_of_second (a b c : Char) (l tl : List Char) (h : c ≠ b) :
    (a :: b :: l).isPrefixOf (a :: c :: tl) = false := by
  show (a == a && (b :: l).isPrefixOf (c :: tl)) = false
  rw [isPrefixOf_false_of_head b c l tl h]
  simp

theorem parse_pyEnc (fuel : Nat) :
    (∀ v out rest, pyEncV v = some out → out.length < fuel → numStopB rest = true →
      parseValue fuel (out ++ rest) = .ok (v, rest))
  ∧ (∀ k v l acc ev t rest, pyEncV v = some ev → pyEncM l = some t →
      ev.length + t.length + 2 ≤ fuel →
      nodupKeysB (acc ++ (k, v) :: l) = true →
      parseMembers fuel (encodeString k ++ ':' :: ' ' :: (ev ++ (t ++ rbraceChar :: rest))) acc
        = .ok (Py.dict (acc ++ (k, v) :: l), rest))
  ∧ (∀ x xs acc eh t rest, pyEncV x = some eh → pyEncL xs = some t →
      eh.length + t.length + 2 ≤ fuel →
      parseElems fuel (eh ++ (t ++ ']' :: rest)) acc
        = .ok (Py.list (acc.reverse ++ x :: xs), rest)) := by
  induction fuel with
  | zero =>
    exact ⟨fun v out rest _ h _ => absurd h (by omega),
      fun k v l acc ev t rest _ _ h _ => absurd h (by omega),
      fun x xs acc eh t rest _ _ h => absurd h (by omega)⟩
  | succ f ih =>
    obtain ⟨ihV, ihM, ihE⟩ := ih
    refine ⟨?_, ?_, ?_⟩
    · intro v out rest henc hlen hstop
      cases v with
      | none =>
        obtain rfl : (['n', 'u', 'l', 'l'] : List Char) = out := by simpa [pyEncV] using henc
        exact parseValue_null f rest
      | bool b =>
        cases b
        · obtain rfl : (['f', 'a', 'l', 's', 'e'] : List Char) = out := by
            simpa [pyEncV] using henc
          exact parseValue_false f rest
        · obtain rfl : (['t', 'r', 'u', 'e'] : List Char) = out := by simpa [pyEncV] using henc
          exact parseValue_true f rest
      | nan =>
        obtain rfl : (['N', 'a', 'N'] : List Char) = out := by simpa [pyEncV] using henc
        exact parseValue_nanLit f rest
      | inf b =>
        cases b
        · obtain rfl : (['I', 'n', 'f', 'i', 'n', 'i', 't', 'y'] : List Char) = out := by
            simpa [pyEncV] using henc
          exact parseValue_posInf f rest
        · obtain rfl : (['-', 'I', 'n', 'f', 'i', 'n', 'i', 't', 'y'] : List Char) = out := by
            simpa [pyEncV] using henc
          exact parseValue_negInf f rest
      | int n =>
        have h2 : intChars n = out := by simpa [pyEncV] using henc
        subst h2
        by_cases hn : n < 0
        · obtain ⟨dc, dtl, hdeq, hdd⟩ := natChars_head_digit n.natAbs
          have hshape : intChars n ++ rest = '-' :: (dc :: (dtl ++ rest)) := by
            rw [intChars, if_pos hn, hdeq]
            simp
          rw [hshape, parseValue_step f '-' (dc :: (dtl ++ rest)) (by decide) (by decide)
            (by decide) (by decide) rfl rfl rfl rfl rfl
            (isPrefixOf_false_of_second '-' 'I' dc _ _ ((isDigit_lit dc hdd).2.2.2.2.1))
            (Or.inl rfl), ← hshape]
          exact parseNumber_intChars n rest hstop
        · obtain ⟨dc, dtl, hdeq, hdd⟩ := natChars_head_digit n.natAbs
          have hshape : intChars n ++ rest = dc :: (dtl ++ rest) := by
            rw [intChars, if_neg hn, hdeq]
            simp
          obtain ⟨hm1, -, -, -, hq1, hl1, hb1⟩ := isDigit_ne dc hdd
          obtain ⟨ht1, hf1, hn1, hN1, hI1, -, -⟩ := isDigit_lit dc hdd
          rw [hshape, parseValue_step f dc (dtl ++ rest) (isDigit_ws dc hdd) hl1 hb1 hq1
            (isPrefixOf_false_of_head 't' dc _ _ ht1)
            (isPrefixOf_false_of_head 'f' dc _ _ hf1)
            (isPrefixOf_false_of_head 'n' dc _ _ hn1)
            (isPrefixOf_false_of_head 'N' dc _ _ hN1)
            (isPrefixOf_false_of_head 'I' dc _ _ hI1)
            (isPrefixOf_false_of_head '-' dc _ _ hm1)
            (Or.inr hdd), ← hshape]
          exact parseNumber_intChars n rest hstop
      | float q =>
        have h2 : encodeFloat? q = some out := by simpa [pyEncV] using henc
        obtain ⟨k, I, F, hk, hF, hout, -⟩ := encodeFloat_spec q out h2
        by_cases hq : q.num < 0
        · rw [if_pos hq] at hout
          obtain ⟨dc, dtl, hdeq, hdd⟩ := natChars_head_digit I
          have hshape : out ++ rest = '-' :: (dc :: ((dtl ++ '.' :: padDigits k F) ++ rest)) := by
            rw [hout, hdeq]
            simp
          rw [hshape, parseValue_step f '-' (dc :: ((dtl ++ '.' :: padDigits k F) ++ rest))
            (by decide) (by decide) (by decide) (by decide) rfl rfl rfl rfl rfl
            (isPrefixOf_false_of_second '-' 'I' dc _ _ ((isDigit_lit dc hdd).2.2.2.2.1))
            (Or.inl rfl), ← hshape]
          exact parseNumber_floatEnc q out h2 rest hstop
        · rw [if_neg hq, List.nil_append] at hout
          obtain ⟨dc, dtl, hdeq, hdd⟩ := natChars_head_digit I
          have hshape : out ++ rest = dc :: ((dtl ++ '.' :: padDigits k F) ++ rest) := by
            rw [hout, hdeq]
            simp
          obtain ⟨hm1, -, -, -, hq1, hl1, hb1⟩ := isDigit_ne dc hdd
          obtain ⟨ht1, hf1, hn1, hN1, hI1, -, -⟩ := isDigit_lit dc hdd
          rw [hshape, parseValue_step f dc _ (isDigit_ws dc hdd) hl1 hb1 hq1
            (isPrefixOf_false_of_head 't' dc _ _ ht1)
            (isPrefixOf_false_of_head 'f' dc _ _ hf1)
            (isPrefixOf_false_of_head 'n' dc _ _ hn1)
            (isPrefixOf_false_of_head 'N' dc _ _ hN1)
            (isPrefixOf_false_of_head 'I' dc _ _ hI1)
            (isPrefixOf_false_of_head '-' dc _ _ hm1)
            (Or.inr hdd), ← hshape]
          exact parseNumber_floatEnc q out h2 rest hstop
      | str s =>
        have h2 : encodeString s = out := by simpa [pyEncV] using henc
        subst h2
        have hshape : encodeString s ++ rest
            = quoteChar :: (encodeStringBody s.toList ++ quoteChar :: rest) := by
          simp [encodeString]
        rw [hshape]
        have hstep : parseValue (f + 1)
            (quoteChar :: (encodeStringBody s.toList ++ quoteChar :: rest))
            = (do
                let sr ← parseStringBody
                  ((encodeStringBody s.toList ++ quoteChar :: rest).length + 1) []
                  (encodeStringBody s.toList ++ quoteChar :: rest)
                (.ok (Py.str sr.1, sr.2) : Except PyErr (Py × List Char))) := rfl
        rw [hstep, parseStringBody_enc s.toList _ [] rest (by simp; omega), except_bind_ok]
        rfl
      | list xs =>
        cases xs with
        | nil =>
          obtain rfl : (['[', ']'] : List Char) = out := by simpa [pyEncV] using henc
          rfl
        | cons x xs =>
          rw [pyEncV] at henc
          cases hx : pyEncV x with
          | none => rw [hx] at henc; exact absurd henc (by simp)
          | some hd =>
            cases hxs : pyEncL xs with
            | none => rw [hx, hxs] at henc; exact absurd henc (by simp)
            | some t' =>
              rw [hx, hxs] at henc
              simp only [Option.some.injEq] at henc
              obtain ⟨c0, tl0, hhd, hws0, hne0⟩ := pyEncV_head x hd hx
              have hshape : out ++ rest = '[' :: (c0 :: (tl0 ++ (t' ++ ']' :: rest))) := by
                rw [← henc, hhd]
                simp
              rw [hshape]
              have hstep : parseValue (f + 1) ('[' :: (c0 :: (tl0 ++ (t' ++ ']' :: rest))))
                  = (match skipJsonWs (c0 :: (tl0 ++ (t' ++ ']' :: rest))) with
                     | c1 :: rest1 =>
                       if c1 = ']' then .ok (Py.list [], rest1)
                       else parseElems f (skipJsonWs (c0 :: (tl0 ++ (t' ++ ']' :: rest)))) []
                     | [] => throw (PyErr.jsonDecodeError "Expecting value")) := rfl
              rw [hstep]
              rw [show skipJsonWs (c0 :: (tl0 ++ (t' ++ ']' :: rest)))
                  = c0 :: (tl0 ++ (t' ++ ']' :: rest)) from by simp [skipJsonWs, hws0]]
              show (if c0 = ']'
                  then (.ok (Py.list [], tl0 ++ (t' ++ ']' :: rest))
                    : Except PyErr (Py × List Char))
                  else parseElems f (c0 :: (tl0 ++ (t' ++ ']' :: rest))) [])
                = Except.ok (Py.list (x :: xs), rest)
              rw [if_neg hne0]
              rw [show c0 :: (tl0 ++ (t' ++ ']' :: rest)) = hd ++ (t' ++ ']' :: rest) from by
                rw [hhd]
                simp]
              rw [ihE x xs [] hd t' rest hx hxs (by
                rw [← henc] at hlen
                simp only [List.length_cons, List.length_append, List.length_nil] at hlen
                omega)]
              simp
      | dict d =>
        cases d with
        | nil =>
          obtain rfl : ([lbraceChar, rbraceChar] : List Char) = out := by
            simpa [pyEncV] using henc
          rfl
        | cons kv rest' =>
          obtain ⟨k, v⟩ := kv
          rw [pyEncV] at henc
          cases hv : pyEncV v with
          | none => rw [hv] at henc; exact absurd henc (by simp)
          | some ev =>
            cases hr : pyEncM rest' with
            | none => rw [hv, hr] at henc; exact absurd henc (by simp)
            | some t' =>
              rw [hv, hr] at henc
              replace henc : (if (rest'.all fun kv => kv.1 ≠ k) = true
                    ∧ nodupKeysB rest' = true
                  then some (lbraceChar :: (encodeString k ++ ':' :: ' ' :: ev ++ t')
                    ++ [rbraceChar])
                  else Option.none) = some out := henc
              by_cases hg : (rest'.all fun kv => kv.1 ≠ k) = true ∧ nodupKeysB rest' = true
              · rw [if_pos hg] at henc
                simp only [Option.some.injEq] at henc
                have hshape : out ++ rest = lbraceChar
                    :: (encodeString k ++ ':' :: ' ' :: (ev ++ (t' ++ rbraceChar :: rest))) := by
                  rw [← henc]
                  simp
                rw [hshape]
                have hstep : parseValue (f + 1) (lbraceChar
                      :: (encodeString k ++ ':' :: ' ' :: (ev ++ (t' ++ rbraceChar :: rest))))
                    = parseMembers f
                      (encodeString k ++ ':' :: ' ' :: (ev ++ (t' ++ rbraceChar :: rest))) [] :=
                  rfl
                rw [hstep, ihM k v rest' [] ev t' rest hv hr (by
                    rw [← henc] at hlen
                    have h5 := encodeString_length k
                    simp only [List.length_cons, List.length_append] at hlen
                    omega) (by
                    show nodupKeysB ((k, v) :: rest') = true
                    simp only [nodupKeysB, Bool.and_eq_true]
                    exact ⟨hg.1, hg.2⟩)]
                rfl
              · rw [if_neg hg] at henc
                exact absurd henc (by simp)
    · intro k v l acc ev t rest hv ht hfl hnd
      have hshape : encodeString k ++ ':' :: ' ' :: (ev ++ (t ++ rbraceChar :: rest))
          = quoteChar :: (encodeStringBody k.toList
              ++ quoteChar :: (':' :: ' ' :: (ev ++ (t ++ rbraceChar :: rest)))) := by
        simp [encodeString]
      have hstep : parseMembers (f + 1)
          (quoteChar :: (encodeStringBody k.toList
            ++ quoteChar :: (':' :: ' ' :: (ev ++ (t ++ rbraceChar :: rest))))) acc
          = (do
              let kr ← parseStringBody
                ((encodeStringBody k.toList
                  ++ quoteChar :: (':' :: ' ' :: (ev ++ (t ++ rbraceChar :: rest)))).length + 1)
                [] (encodeStringBody k.toList
                  ++ quoteChar :: (':' :: ' ' :: (ev ++ (t ++ rbraceChar :: rest))))
              match skipJsonWs kr.2 with
              | c2 :: r3 =>
                if c2 = ':' then do
                  let vr ← parseValue f r3
                  let acc1 := dictSet acc kr.1 vr.1
                  match skipJsonWs vr.2 with
                  | c5 :: r6 =>
                    if c5 = ',' then parseMembers f (skipJsonWs r6) acc1
                    else if c5 = rbraceChar then .ok (Py.dict acc1, r6)
                    else throw (PyErr.jsonDecodeError "Expecting \x27,\x27 delimiter")
                  | [] => throw (PyErr.jsonDecodeError "Expecting \x27,\x27 delimiter")
                else throw (PyErr.jsonDecodeError "Expecting \x27:\x27 delimiter")
              | [] => throw (PyErr.jsonDecodeError "Expecting \x27:\x27 delimiter")) := rfl
      rw [hshape, hstep,
        parseStringBody_enc k.toList _ []
          (':' :: ' ' :: (ev ++ (t ++ rbraceChar :: rest))) (by simp; omega),
        except_bind_ok]
      show (do
          let vr ← parseValue f (' ' :: (ev ++ (t ++ rbraceChar :: rest)))
          let acc1 := dictSet acc k vr.1
          match skipJsonWs vr.2 with
          | c5 :: r6 =>
            if c5 = ',' then parseMembers f (skipJsonWs r6) acc1
            else if c5 = rbraceChar then .ok (Py.dict acc1, r6)
            else throw (PyErr.jsonDecodeError "Expecting \x27,\x27 delimiter")
          | [] => throw (PyErr.jsonDecodeError "Expecting \x27,\x27 delimiter"))
        = Except.ok (Py.dict (acc ++ (k, v) :: l), rest)
      rw [parseValue_ws f, ihV v ev (t ++ rbraceChar :: rest) hv (by omega)
        (pyEncM_numStop l t ht rest), except_bind_ok]
      show (match skipJsonWs (t ++ rbraceChar :: rest) with
          | c5 :: r6 =>
            if c5 = ',' then parseMembers f (skipJsonWs r6) (dictSet acc k v)
            else if c5 = rbraceChar then .ok (Py.dict (dictSet acc k v), r6)
            else throw (PyErr.jsonDecodeError "Expecting \x27,\x27 delimiter")
          | [] => throw (PyErr.jsonDecodeError "Expecting \x27,\x27 delimiter"))
        = Except.ok (Py.dict (acc ++ (k, v) :: l), rest)
      rw [dictSet_append acc k v (nodupKeysB_prefix_all k v l acc hnd)]
      rcases pyEncM_shape l t ht with ⟨rfl, rfl⟩ | ⟨k', v', l', ev', t', rfl, hv', ht', rfl⟩
      · show (Except.ok (Py.dict (acc ++ [(k, v)]), rest) : Except PyErr (Py × List Char))
          = Except.ok (Py.dict (acc ++ (k, v) :: []), rest)
        rfl
      · show parseMembers f
            (skipJsonWs (' ' :: ((encodeString k' ++ ':' :: ' ' :: (ev' ++ t'))
              ++ rbraceChar :: rest))) (acc ++ [(k, v)])
          = Except.ok (Py.dict (acc ++ (k, v) :: (k', v') :: l'), rest)
        rw [show skipJsonWs (' ' :: ((encodeString k' ++ ':' :: ' ' :: (ev' ++ t'))
              ++ rbraceChar :: rest))
            = skipJsonWs ((encodeString k' ++ ':' :: ' ' :: (ev' ++ t'))
              ++ rbraceChar :: rest) from rfl]
        rw [show (encodeString k' ++ ':' :: ' ' :: (ev' ++ t')) ++ rbraceChar :: rest
            = encodeString k' ++ ':' :: ' ' :: (ev' ++ (t' ++ rbraceChar :: rest)) from by
          simp]
        rw [skipJsonWs_encodeString]
        rw [ihM k' v' l' (acc ++ [(k, v)]) ev' t' rest hv' ht' (by
            have h5 := encodeString_length k'
            simp only [List.length_cons, List.length_append] at hfl
            omega) (by
            rw [List.append_assoc]
            simpa using hnd)]
        simp
    · intro x xs acc eh t rest hx ht hfl
      have hstep : parseElems (f + 1) (eh ++ (t ++ ']' :: rest)) acc
          = (do
              let vr ← parseValue f (eh ++ (t ++ ']' :: rest))
              let acc1 := vr.1 :: acc
              match skipJsonWs vr.2 with
              | c :: r3 =>
                if c = ',' then parseElems f r3 acc1
                else if c = ']' then .ok (Py.list acc1.reverse, r3)
                else throw (PyErr.jsonDecodeError "Expecting \x27,\x27 delimiter")
              | [] => throw (PyErr.jsonDecodeError "Expecting \x27,\x27 delimiter")) := rfl
      rw [hstep, ihV x eh (t ++ ']' :: rest) hx (by omega) (pyEncL_numStop xs t ht rest),
        except_bind_ok]
      rcases pyEncL_shape xs t ht with ⟨rfl, rfl⟩ | ⟨y, ys, h', t', rfl, hy, hys, rfl⟩
      · show (match skipJsonWs ([] ++ ']' :: rest) with
          | c :: r3 =>
            if c = ',' then parseElems f r3 (x :: acc)
            else if c = ']' then .ok (Py.list (x :: acc).reverse, r3)
            else throw (PyErr.jsonDecodeError "Expecting \x27,\x27 delimiter")
          | [] => throw (PyErr.jsonDecodeError "Expecting \x27,\x27 delimiter"))
          = Except.ok (Py.list (acc.reverse ++ x :: []), rest)
        show (Except.ok (Py.list (x :: acc).reverse, rest) : Except PyErr (Py × List Char)) = _
        simp
      · show (match skipJsonWs ((',' :: ' ' :: (h' ++ t')) ++ ']' :: rest) with
          | c :: r3 =>
            if c = ',' then parseElems f r3 (x :: acc)
            else if c = ']' then .ok (Py.list (x :: acc).reverse, r3)
            else throw (PyErr.jsonDecodeError "Expecting \x27,\x27 delimiter")
          | [] => throw (PyErr.jsonDecodeError "Expecting \x27,\x27 delimiter"))
          = Except.ok (Py.list (acc.reverse ++ x :: y :: ys), rest)
        show parseElems f (' ' :: ((h' ++ t') ++ ']' :: rest)) (x :: acc) = _
        rw [parseElems_ws]
        rw [show (h' ++ t') ++ ']' :: rest = h' ++ (t' ++ ']' :: rest) from by simp]
        rw [ihE y ys (x :: acc) h' t' rest hy hys (by
          have := encodeString_length
          simp only [List.length_cons, List.length_append] at hfl ⊢
          omega)]
        simp

theorem jsonLoads_pyEnc (v : Py) (out : List Char) (h : pyEncV v = some out) :
    jsonLoads (String.mk out) = .ok v := by
  have h1 := (parse_pyEnc (out.length + 1)).1 v out [] h (by omega) rfl
  rw [List.append_nil] at h1
  change (do
      let vr ← parseValue (out.length + 1) out
      match skipJsonWs vr.2 with
      | [] => (.ok vr.1 : Except PyErr Py)
      | _ => throw (PyErr.jsonDecodeError "Extra data")) = .ok v
  rw [h1, except_bind_ok]
  rfl

theorem pyStripChars_brace (X : List Char) :
    pyStripChars (lbraceChar :: (X ++ [rbraceChar])) = lbraceChar :: (X ++ [rbraceChar]) := by
  have h1 : (lbraceChar :: (X ++ [rbraceChar])).dropWhile pyIsSpace
      = lbraceChar :: (X ++ [rbraceChar]) := by
    rw [List.dropWhile_cons, show pyIsSpace lbraceChar = false from rfl]
    simp
  have h2 : (rbraceChar :: (X.reverse ++ [lbraceChar])).dropWhile pyIsSpace
      = rbraceChar :: (X.reverse ++ [lbraceChar]) := by
    rw [List.dropWhile_cons, show pyIsSpace rbraceChar = false from rfl]
    simp
  show ((((lbraceChar :: (X ++ [rbraceChar])).dropWhile pyIsSpace).reverse.dropWhile
      pyIsSpace)).reverse = lbraceChar :: (X ++ [rbraceChar])
  rw [h1, show (lbraceChar :: (X ++ [rbraceChar])).reverse
    = rbraceChar :: (X.reverse ++ [lbraceChar]) from by simp, h2]
  simp

theorem reSearchBrace_brace (X : List Char) :
    reSearchBrace (lbraceChar :: (X ++ [rbraceChar]))
      = some (lbraceChar :: (X ++ [rbraceChar])) := by
  have hd1 : dropUntil lbraceChar (lbraceChar :: (X ++ [rbraceChar]))
      = some (lbraceChar :: (X ++ [rbraceChar])) := by
    rw [dropUntil_cons]
    simp
  have hd2 : dropUntil rbraceChar (rbraceChar :: (X.reverse ++ [lbraceChar]))
      = some (rbraceChar :: (X.reverse ++ [lbraceChar])) := by
    rw [dropUntil_cons]
    simp
  rw [reSearchBrace, hd1]
  simp only [Option.some_bind]
  rw [show (lbraceChar :: (X ++ [rbraceChar])).reverse
    = rbraceChar :: (X.reverse ++ [lbraceChar]) from by simp, hd2]
  simp

theorem cleanResponse_brace (X : List Char) :
    cleanResponse (String.mk (lbraceChar :: (X ++ [rbraceChar])))
      = String.mk (lbraceChar :: (X ++ [rbraceChar])) := by
  have hstrip : pyStripChars (String.mk (lbraceChar :: (X ++ [rbraceChar]))).toList
      = lbraceChar :: (X ++ [rbraceChar]) := pyStripChars_brace X
  have hp1 : (([backquoteChar, backquoteChar, backquoteChar] ++ ['j', 's', 'o', 'n'])
      : List Char).isPrefixOf (lbraceChar :: (X ++ [rbraceChar])) = false :=
    isPrefixOf_false_of_head backquoteChar lbraceChar _ _ (by decide)
  have hp2 : ([backquoteChar, backquoteChar, backquoteChar]
      : List Char).isPrefixOf (lbraceChar :: (X ++ [rbraceChar])) = false :=
    isPrefixOf_false_of_head backquoteChar lbraceChar _ _ (by decide)
  have hs1 : ([backquoteChar, backquoteChar, backquoteChar]
      : List Char).isSuffixOf (lbraceChar :: (X ++ [rbraceChar])) = false := by
    show ([backquoteChar, backquoteChar, backquoteChar]
      : List Char).reverse.isPrefixOf (lbraceChar :: (X ++ [rbraceChar])).reverse = false
    rw [show ([backquoteChar, backquoteChar, backquoteChar] : List Char).reverse
        = [backquoteChar, backquoteChar, backquoteChar] from rfl,
      show (lbraceChar :: (X ++ [rbraceChar])).reverse
        = rbraceChar :: (X.reverse ++ [lbraceChar]) from by simp]
    exact isPrefixOf_false_of_head backquoteChar rbraceChar _ _ (by decide)
  simp only [cleanResponse, hstrip, pyStripChars_brace, hp1, hp2, hs1, Bool.false_eq_true,
    if_false, reSearchBrace_brace]

theorem dictSet_id (d : List (String × Py)) (k : String) (v : Py)
    (h : dlookup d k = some v) : dictSet d k v = d := by
  induction d with
  | nil => simp [dlookup] at h
  | cons p rest ih =>
    obtain ⟨k0, w⟩ := p
    show (if k0 = k then (k0, v) :: rest else (k0, w) :: dictSet rest k v) = (k0, w) :: rest
    by_cases h0 : k0 = k
    · rw [if_pos h0]
      have : w = v := by
        have h2 : (if k0 = k then some w else dlookup rest k) = some v := h
        rw [if_pos h0] at h2
        simpa using h2
      rw [this]
    · rw [if_neg h0]
      have h2 : (if k0 = k then some w else dlookup rest k) = some v := h
      rw [if_neg h0] at h2
      rw [ih h2]

theorem fillDefaults_id (defs : List (String × Py)) (d : List (String × Py))
    (h : ∀ p ∈ defs, (dlookup d p.1).isSome = true) : fillDefaults defs d = d := by
  induction defs with
  | nil => rfl
  | cons p rest ih =>
    obtain ⟨k, v⟩ := p
    show fillDefaults rest (if (dlookup d k).isSome then d else d ++ [(k, v)]) = d
    rw [if_pos (h (k, v) (by simp))]
    exact ih (fun q hq => h q (by simp [hq]))

theorem clampScore_clamp (n : Int) : clampScore (clampScore n) = clampScore n := by
  simp only [clampScore]
  omega

theorem pyEncV_dict_shape (d : List (String × Py)) (out : List Char)
    (h : pyEncV (Py.dict d) = some out) (hne : d ≠ []) :
    ∃ A, out = lbraceChar :: (A ++ [rbraceChar]) := by
  cases d with
  | nil => exact absurd rfl hne
  | cons kv rest =>
    obtain ⟨k, v⟩ := kv
    rw [pyEncV] at h
    cases hv : pyEncV v with
    | none => rw [hv] at h; exact absurd h (by simp)
    | some ev =>
      cases hr : pyEncM rest with
      | none => rw [hv, hr] at h; exact absurd h (by simp)
      | some t =>
        rw [hv, hr] at h
        replace h : (if (rest.all fun kv => kv.1 ≠ k) = true ∧ nodupKeysB rest = true
            then some (lbraceChar :: (encodeString k ++ ':' :: ' ' :: ev ++ t) ++ [rbraceChar])
            else Option.none) = some out := h
        by_cases hg : (rest.all fun kv => kv.1 ≠ k) = true ∧ nodupKeysB rest = true
        · rw [if_pos hg] at h
          simp only [Option.some.injEq] at h
          refine ⟨encodeString k ++ ':' :: ' ' :: (ev ++ t), ?_⟩
          rw [← h]
          simp
        · rw [if_neg hg] at h
          exact absurd h (by simp)

/-- C8: on a well-formed case, where the try-branch of `_parse_score_response`
succeeds on the raw text with result `r`, re-encoding `r` as JSON text and
running it through the normalizer again returns exactly `r`: normalization is
round-trip stable on its own well-formed output. -/
theorem normalization_roundtrip (s t : String) (r : List (String × Py))
    (hparse : parseTryStr s = .ok r) (henc : pyEncode (Py.dict r) = some t) :
    parseScoreStr t = r := by
  obtain ⟨d, v, n, hj, hl, hn, hr⟩ := parseTryStr_ok_shape s r hparse
  obtain ⟨out, hout, rfl⟩ : ∃ out, pyEncV (Py.dict r) = some out ∧ t = String.mk out := by
    cases ho : pyEncV (Py.dict r) with
    | none => rw [pyEncode, ho] at henc; exact absurd henc (by simp)
    | some o =>
      rw [pyEncode, ho] at henc
      simp only [Option.map_some', Option.some.injEq] at henc
      exact ⟨o, rfl, henc.symm⟩
  have hscore : dlookup r "score" = some (Py.int (clampScore n)) := by
    rw [hr, fillDefaults_lookup_isSome _ _ _ (by rw [dlookup_dictSet_self]; rfl)]
    exact dlookup_dictSet_self d "score" _
  have hne : r ≠ [] := by
    intro h0
    rw [h0] at hscore
    simp [dlookup] at hscore
  obtain ⟨A, hA⟩ := pyEncV_dict_shape r out hout hne
  have hload : jsonLoads (cleanResponse (String.mk out)) = .ok (Py.dict r) := by
    rw [hA, cleanResponse_brace A, ← hA]
    exact jsonLoads_pyEnc (Py.dict r) out hout
  have htry := parseTryStr_ok_of (String.mk out) r (Py.int (clampScore n)) (clampScore n)
    hload hscore rfl
  rw [clampScore_clamp, dictSet_id r "score" _ hscore,
    fillDefaults_id analysisDefaults r (fun p hp => by
      rw [hr]
      exact fillDefaults_covers _ _ _ (List.mem_map.mpr ⟨p, hp, rfl⟩))] at htry
  exact parseScoreStr_of_ok _ r htry

theorem normalization_roundtrip_witness :
    parseTryStr "\x7b\"score\": 82, \"risk_level\": \"low\"\x7d"
        = .ok [("score", Py.int 82), ("risk_level", Py.str "low"),
            ("executive_summary", Py.str "Analysis in progress..."),
            ("market_analysis", Py.str "Market data being analyzed..."),
            ("origin_analysis", Py.str "Origin analysis pending..."),
            ("buyer_profile", Py.str "Buyer analysis pending..."),
            ("price_analysis", Py.str "Price analysis pending..."),
            ("payment_logistics", Py.str "Payment analysis pending..."),
            ("red_flags", Py.list []), ("unusual_patterns", Py.list []),
            ("strengths", Py.list []), ("next_steps", Py.list []),
            ("reasoning", Py.list []),
            ("recommendation", Py.str "Review detailed analysis")]
      ∧ pyEncode (Py.dict [("score", Py.int 82), ("risk_level", Py.str "low"),
            ("executive_summary", Py.str "Analysis in progress..."),
            ("market_analysis", Py.str "Market data being analyzed..."),
            ("origin_analysis", Py.str "Origin analysis pending..."),
            ("buyer_profile", Py.str "Buyer analysis pending..."),
            ("price_analysis", Py.str "Price analysis pending..."),
            ("payment_logistics", Py.str "Payment analysis pending..."),
            ("red_flags", Py.list []), ("unusual_patterns", Py.list []),
            ("strengths", Py.list []), ("next_steps", Py.list []),
            ("reasoning", Py.list []),
            ("recommendation", Py.str "Review detailed analysis")])
          = some ("\x7b\"score\": 82, \"risk_level\": \"low\", \"executive_summary\": \"Analysis in progress...\", \"market_analysis\": \"Market data being analyzed...\", \"origin_analysis\": \"Origin analysis pending...\", \"buyer_profile\": \"Buyer analysis pending...\", \"price_analysis\": \"Price analysis pending...\", \"payment_logistics\": \"Payment analysis pending...\", \"red_flags\": [], \"unusual_patterns\": [], \"strengths\": [], \"next_steps\": [], \"reasoning\": [], \"recommendation\": \"Review detailed analysis\"\x7d")
      ∧ parseScoreStr "\x7b\"score\": 82, \"risk_level\": \"low\", \"executive_summary\": \"Analysis in progress...\", \"market_analysis\": \"Market data being analyzed...\", \"origin_analysis\": \"Origin analysis pending...\", \"buyer_profile\": \"Buyer analysis pending...\", \"price_analysis\": \"Price analysis pending...\", \"payment_logistics\": \"Payment analysis pending...\", \"red_flags\": [], \"unusual_patterns\": [], \"strengths\": [], \"next_steps\": [], \"reasoning\": [], \"recommendation\": \"Review detailed analysis\"\x7d"
        = [("score", Py.int 82), ("risk_level", Py.str "low"),
            ("executive_summary", Py.str "Analysis in progress..."),
            ("market_analysis", Py.str "Market data being analyzed..."),
            ("origin_analysis", Py.str "Origin analysis pending..."),
            ("buyer_profile", Py.str "Buyer analysis pending..."),
            ("price_analysis", Py.str "Price analysis pending..."),
            ("payment_logistics", Py.str "Payment analysis pending..."),
            ("red_flags", Py.list []), ("unusual_patterns", Py.list []),
            ("strengths", Py.list []), ("next_steps", Py.list []),
            ("reasoning", Py.list []),
            ("recommendation", Py.str "Review detailed analysis")] :=
  ⟨rfl, rfl, normalization_roundtrip "\x7b\"score\": 82, \"risk_level\": \"low\"\x7d" _ _ rfl rfl⟩
